import Mathlib

/-!
# Pitch Arena: verification of the specification against the sources

Shallow embedding of the pitch-submission and community-feedback
application:

* the persistence store (tables `pitches`, `ai_feedback`, `votes` from the
  schema migration) is a record of lists of rows;
* the feedback generation endpoint (the `generate-pitch-feedback` request
  handler) is a pure function from a store, a request body and an
  environment to a response, an updated store and the sequence of
  AI-status writes it performed;
* the client flows (submission form, entrepreneur dashboard, pitch detail
  view, discovery feed, leaderboard) are pure functions and a transition
  system whose events are the store mutations those flows can issue.

Machine integers do not occur: ids, timestamps and counts are `Nat`,
scores are `Int`, and the leaderboard percentage is computed over `ℚ`.
-/

namespace PitchArena

/-! ## Basic value types (from the schema CHECK constraints) -/

/-- `pitches.status`: CHECK (status IN ('draft', 'published')). -/
inductive PitchStatus
  | draft
  | published
deriving DecidableEq, Repr

/-- `pitches.ai_processing_status`: the four lifecycle states used by the
generation endpoint and read by the dashboard
(`'pending' | 'processing' | 'completed' | 'failed'`). -/
inductive AIStatus
  | pending
  | processing
  | completed
  | failed
deriving DecidableEq, Repr

/-- `votes.vote_type`: CHECK (vote_type IN ('interesting', 'needs_work')). -/
inductive VoteType
  | interesting
  | needs_work
deriving DecidableEq, Repr

/-- The payload of an `ai_feedback` row: strengths, weaknesses,
recommendations and the overall score. -/
structure FeedbackContent where
  strengths : List String
  weaknesses : List String
  recommendations : List String
  overall_score : Int
deriving DecidableEq, Repr

/-- The fixed mock payload of the generation endpoint, used when
`OPENAI_API_KEY` is not configured (verbatim from the handler). -/
def mockFeedback : FeedbackContent where
  strengths :=
    [ "Clear problem identification and target audience definition"
    , "Well-articulated value proposition"
    , "Demonstrates understanding of market need" ]
  weaknesses :=
    [ "Could benefit from more specific metrics and data"
    , "Competitive landscape analysis is limited"
    , "Monetization strategy could be more detailed" ]
  recommendations :=
    [ "Include market size data and growth projections"
    , "Add more details about competitive advantages"
    , "Clarify go-to-market strategy and customer acquisition plan" ]
  overall_score := 7

/-- The five text fields of the submission form (`PitchFormData`). -/
structure PitchFormData where
  title : String
  target_audience : String
  pain_point : String
  product_description : String
  elevator_pitch : String
deriving DecidableEq, Repr

/-! ## Rows and the store -/

/-- A row of the `pitches` table.  Timestamps are abstract `Nat` instants;
`none` models SQL NULL for the nullable columns. -/
structure PitchRow where
  id : Nat
  user_id : Nat
  title : String
  target_audience : String
  pain_point : String
  product_description : String
  elevator_pitch : String
  status : PitchStatus
  ai_processing_status : AIStatus
  ai_processing_error : Option String
  ai_processing_started_at : Option Nat
  ai_processing_completed_at : Option Nat
  created_at : Nat
deriving DecidableEq, Repr

/-- A row of the `ai_feedback` table (the id column is immaterial; the
table carries UNIQUE(pitch_id)). -/
structure FeedbackRow where
  pitch_id : Nat
  content : FeedbackContent
deriving DecidableEq, Repr

/-- A row of the `votes` table (UNIQUE(pitch_id, user_id)). -/
structure VoteRow where
  pitch_id : Nat
  user_id : Nat
  vote_type : VoteType
deriving DecidableEq, Repr

/-- The persistence store: the three tables the claims are about. -/
structure DB where
  pitches : List PitchRow
  feedback : List FeedbackRow
  votes : List VoteRow
deriving DecidableEq, Repr

def emptyDB : DB := ⟨[], [], []⟩

/-- `.from('pitches').select('*').eq('id', pid).single()`. -/
def findPitch (db : DB) (pid : Nat) : Option PitchRow :=
  db.pitches.find? fun p => p.id == pid

def pitchIdExists (db : DB) (pid : Nat) : Bool :=
  db.pitches.any fun p => p.id == pid

/-- Whether an `ai_feedback` row for the pitch exists (the condition under
which the UNIQUE(pitch_id) constraint makes an insert fail). -/
def hasFeedback (db : DB) (pid : Nat) : Bool :=
  db.feedback.any fun f => f.pitch_id == pid

def fbCount (db : DB) (pid : Nat) : Nat :=
  (db.feedback.filter fun f => f.pitch_id == pid).length

def pairMatches (pid uid : Nat) (v : VoteRow) : Bool :=
  v.pitch_id == pid && v.user_id == uid

/-- Whether the voter already has a vote row on the pitch. -/
def hasVote (db : DB) (pid uid : Nat) : Bool :=
  db.votes.any (pairMatches pid uid)

def countVotePair (db : DB) (pid uid : Nat) : Nat :=
  (db.votes.filter (pairMatches pid uid)).length

/-- `.from('pitches').update(...).eq('id', pid)`: apply `f` to every row
whose id matches (a no-op when no row matches). -/
def updatePitch (db : DB) (pid : Nat) (f : PitchRow → PitchRow) : DB :=
  { db with pitches := db.pitches.map fun p => if p.id == pid then f p else p }

/-- `.from('ai_feedback').insert(...)` on the success path (the caller has
already ruled out the uniqueness violation). -/
def insertFeedback (db : DB) (row : FeedbackRow) : DB :=
  { db with feedback := db.feedback ++ [row] }

/-! ## The generation endpoint (`generate-pitch-feedback` handler) -/

/-- What the external AI call would produce, as seen by the handler:
a non-2xx response, a 2xx response whose content fails `JSON.parse`,
or parsed feedback. -/
inductive AIOutcome
  | httpError (status : Nat) (body : String)
  | malformedJson (msg : String)
  | parsed (fb : FeedbackContent)
deriving DecidableEq, Repr

/-- The handler's environment: the optional `OPENAI_API_KEY` and the
behaviour of the upstream AI API. -/
structure GenEnv where
  openaiApiKey : Option String
  aiOutcome : AIOutcome
deriving DecidableEq, Repr

/-- The handler's four response shapes. -/
inductive GenResponse
  | badRequest (msg : String)
  | notFound (msg : String)
  | ok (fb : FeedbackContent)
  | serverError (msg : String)
deriving DecidableEq, Repr

/-- The HTTP status code carried by each response shape. -/
def GenResponse.httpStatus : GenResponse → Nat
  | .badRequest _ => 400
  | .notFound _ => 404
  | .ok _ => 200
  | .serverError _ => 500

/-- `error.message || 'Failed to generate feedback'`. -/
def errMessage (msg : String) : String :=
  if msg = "" then "Failed to generate feedback" else msg

/-- The message of the store error raised when the feedback insert hits
UNIQUE(pitch_id). -/
def uniqueViolationMsg : String :=
  "duplicate key value violates unique constraint"

/-- Result of one handler run: the HTTP response, the updated store, and
the sequence of `ai_processing_status` values actually written to the
requested pitch row. -/
structure GenResult where
  response : GenResponse
  db : DB
  writes : List AIStatus
deriving DecidableEq, Repr

/-- `ai_processing_status: 'processing', ai_processing_started_at: now`. -/
def setProcessing (db : DB) (pid now : Nat) : DB :=
  updatePitch db pid fun p =>
    { p with ai_processing_status := .processing
             ai_processing_started_at := some now }

/-- `ai_processing_status: 'completed', completed_at: now, error: null`. -/
def setCompleted (db : DB) (pid now : Nat) : DB :=
  updatePitch db pid fun p =>
    { p with ai_processing_status := .completed
             ai_processing_completed_at := some now
             ai_processing_error := none }

/-- The catch-block update: `'failed'`, the error message, completed-at. -/
def setFailed (db : DB) (pid : Nat) (msg : String) (now : Nat) : DB :=
  updatePitch db pid fun p =>
    { p with ai_processing_status := .failed
             ai_processing_error := some msg
             ai_processing_completed_at := some now }

/-- The catch block of the handler: record the failure on the pitch row
and answer 500 with the error message (`error.message || '...'`). -/
def genFail (db : DB) (pid : Nat) (rawMsg : String) (now : Nat)
    (prior : List AIStatus) : GenResult :=
  let msg := errMessage rawMsg
  { response := .serverError msg
    db := setFailed db pid msg now
    writes := prior ++ [.failed] }

/-- Shared tail of the mock branch and the parsed-AI branch: insert the
feedback row (throwing into the catch block on a uniqueness violation),
then mark the pitch completed and answer 200. -/
def genInsertAndComplete (db : DB) (pid : Nat) (fb : FeedbackContent)
    (now : Nat) : GenResult :=
  if hasFeedback db pid then
    genFail db pid uniqueViolationMsg now [.processing]
  else
    { response := .ok fb
      db := setCompleted (insertFeedback db ⟨pid, fb⟩) pid now
      writes := [.processing, .completed] }

/-- The `generate-pitch-feedback` handler.  `req` is the `pitch_id` of the
request body (`none` when the field is missing or empty).  Faithful to the
source order: the 400 check, then the unconditional 'processing' update,
then the pitch lookup (404), then the mock fallback or the AI call. -/
def generatePitchFeedback (db : DB) (req : Option Nat) (env : GenEnv)
    (now : Nat) : GenResult :=
  match req with
  | none => { response := .badRequest "pitch_id is required", db := db, writes := [] }
  | some pid =>
    let db1 := setProcessing db pid now
    match findPitch db1 pid with
    | none => { response := .notFound "Pitch not found", db := db1, writes := [] }
    | some _ =>
      match env.openaiApiKey with
      | none => genInsertAndComplete db1 pid mockFeedback now
      | some _ =>
        match env.aiOutcome with
        | .httpError st body =>
          genFail db1 pid ("OpenAI API error: " ++ toString st ++ " - " ++ body)
            now [.processing]
        | .malformedJson m => genFail db1 pid m now [.processing]
        | .parsed fb => genInsertAndComplete db1 pid fb now

/-! ## Client flows -/

namespace PitchSubmissionForm

/-- JS whitespace as used by `trim()` and the `\s` class, restricted to
the ASCII whitespace characters. -/
def jsIsSpace (c : Char) : Bool :=
  c == ' ' || c == '\t' || c == '\n' || c == '\r' || c == '\x0b' || c == '\x0c'

/-- `String.prototype.trim()` on the character list of the string. -/
def jsTrim (s : List Char) : List Char :=
  ((s.dropWhile jsIsSpace).reverse.dropWhile jsIsSpace).reverse

/-- Number of maximal runs of non-whitespace characters; the flag records
whether the previous character belonged to a run. -/
def countRuns : List Char → Bool → Nat
  | [], _ => 0
  | c :: cs, inWord =>
    if jsIsSpace c then countRuns cs false
    else (if inWord then 0 else 1) + countRuns cs true

/-- `s.trim().split(/\s+/).length`: splitting the empty string yields the
one-element array containing the empty string, otherwise one element per
run of non-whitespace characters. -/
def wordCount (s : String) : Nat :=
  let t := jsTrim s.toList
  if t.isEmpty then 1 else countRuns t false

/-- `isStepValid` of the submission form: steps 1-4 require a non-blank
field, step 5 requires the elevator pitch's word count to be in 250-500. -/
def isStepValid (step : Nat) (fd : PitchFormData) : Bool :=
  match step with
  | 1 => 0 < (jsTrim fd.title.toList).length
  | 2 => 0 < (jsTrim fd.target_audience.toList).length
  | 3 => 0 < (jsTrim fd.pain_point.toList).length
  | 4 => 0 < (jsTrim fd.product_description.toList).length
  | 5 =>
    let wc := wordCount fd.elevator_pitch
    250 ≤ wc && wc ≤ 500
  | _ => false

/-- `disabled={!isStepValid() || loading}` on the Continue/Submit button. -/
def submitDisabled (step : Nat) (fd : PitchFormData) (loading : Bool) : Bool :=
  !(isStepValid step fd) || loading

/-- What pressing the Continue/Submit button does: nothing when disabled,
advance a step below 5, invoke `handleSubmit` (publish) at step 5. -/
inductive NextAction
  | blocked
  | advance (newStep : Nat)
  | publish
deriving DecidableEq, Repr

def clickNext (step : Nat) (fd : PitchFormData) (loading : Bool) : NextAction :=
  if submitDisabled step fd loading then .blocked
  else if step < 5 then .advance (step + 1) else .publish

end PitchSubmissionForm

/-- A freshly inserted pitch row.  The ai-processing migration declares
`ai_processing_status text DEFAULT 'pending'` and leaves the three other
ai columns NULL, so a new row starts at `pending` with no error and no
timestamps. -/
def newPitchRow (pid uid : Nat) (fd : PitchFormData) (st : PitchStatus)
    (t : Nat) : PitchRow where
  id := pid
  user_id := uid
  title := fd.title
  target_audience := fd.target_audience
  pain_point := fd.pain_point
  product_description := fd.product_description
  elevator_pitch := fd.elevator_pitch
  status := st
  ai_processing_status := .pending
  ai_processing_error := none
  ai_processing_started_at := none
  ai_processing_completed_at := none
  created_at := t

namespace PitchDetailView

/-- `handleVote` of the pitch detail view: bail out for a missing user or
pitch or a self-vote; then update the existing vote row's type in place
when the voter already voted (`pitch.user_vote`), else insert a first
vote. -/
def handleVote (db : DB) (pid uid : Nat) (vt : VoteType) : DB :=
  match findPitch db pid with
  | none => db
  | some p =>
    if p.user_id = uid then db
    else if hasVote db pid uid then
      { db with votes := db.votes.map fun v =>
          if pairMatches pid uid v then { v with vote_type := vt } else v }
    else { db with votes := db.votes ++ [⟨pid, uid, vt⟩] }

end PitchDetailView

namespace DiscoverFeed

/-- `handleVote` of the discovery feed: a bare insert into `votes`,
accepted only when the row-level policy (voter is not the pitch owner)
and the UNIQUE(pitch_id, user_id) constraint admit it; a failing insert
leaves the store unchanged. -/
def handleVote (db : DB) (pid uid : Nat) (vt : VoteType) : DB :=
  match findPitch db pid with
  | none => db
  | some p =>
    if p.user_id ≠ uid ∧ hasVote db pid uid = false then
      { db with votes := db.votes ++ [⟨pid, uid, vt⟩] }
    else db

end DiscoverFeed

namespace Leaderboard

/-- The recency filter of the leaderboard. -/
inductive LBFilter
  | all
  | today
  | week
deriving DecidableEq, Repr

/-- An entry of the leaderboard list. -/
structure LBEntry where
  id : Nat
  title : String
  product_description : String
  interesting : Nat
  needs_work : Nat
  ai_score : Option Int
  rank : Nat
deriving DecidableEq, Repr

/-- Count the votes of one type on a pitch (derived, never stored). -/
def countVotes (votes : List VoteRow) (pid : Nat) (vt : VoteType) : Nat :=
  ((votes.filter fun v => v.pitch_id == pid).filter
    fun v => v.vote_type == vt).length

/-- `created_at >= cutoff` for the selected recency window; `todayStart`
and `weekStart` are the two cutoff instants computed from the clock. -/
def passesFilter (f : LBFilter) (todayStart weekStart : Nat)
    (p : PitchRow) : Bool :=
  match f with
  | .all => true
  | .today => todayStart ≤ p.created_at
  | .week => weekStart ≤ p.created_at

/-- Build the unranked entry of one pitch (rank is assigned later). -/
def lbEntry (votes : List VoteRow) (fb : List FeedbackRow)
    (p : PitchRow) : LBEntry where
  id := p.id
  title := p.title
  product_description := p.product_description
  interesting := countVotes votes p.id .interesting
  needs_work := countVotes votes p.id .needs_work
  ai_score := ((fb.find? fun f => f.pitch_id == p.id).map
    fun f => f.content.overall_score)
  rank := 0

/-- `.map((pitch, index) => ({ ...pitch, rank: index + 1 }))`. -/
def assignRanksFrom (r : Nat) : List LBEntry → List LBEntry
  | [] => []
  | e :: es => { e with rank := r } :: assignRanksFrom (r + 1) es

/-- The descending comparison `(a, b) => b.vote_counts.interesting -
a.vote_counts.interesting`, as the stable-sort order it induces. -/
def moreInteresting (a b : LBEntry) : Bool :=
  b.interesting ≤ a.interesting

/-- `loadLeaderboard`: select published pitches passing the recency
filter, build entries with derived vote counts and feedback score, sort
descending by interesting votes (stable), rank 1-based, keep the top 20. -/
def loadLeaderboard (db : DB) (f : LBFilter)
    (todayStart weekStart : Nat) : List LBEntry :=
  let filtered := db.pitches.filter fun p =>
    p.status == PitchStatus.published && passesFilter f todayStart weekStart p
  let entries := filtered.map (lbEntry db.votes db.feedback)
  let sorted := entries.mergeSort moreInteresting
  (assignRanksFrom 1 sorted).take 20

/-- The denominator of the "% positive" figure:
`(interesting + needs_work || 1)`. -/
def percentDenominator (i nw : Nat) : Nat :=
  if i + nw = 0 then 1 else i + nw

/-- `Math.round(x)` for the non-negative values occurring here. -/
def jsRound (q : ℚ) : Int :=
  ⌊q + 1 / 2⌋

/-- `Math.round((interesting / (interesting + needs_work || 1)) * 100)`. -/
def percentPositive (i nw : Nat) : Int :=
  jsRound ((i : ℚ) / (percentDenominator i nw : ℚ) * 100)

end Leaderboard

/-! ## The client-flow transition system

Events are the store mutations the client screens can issue, with the
guards the screens put in front of them: the submission form saves or
publishes a draft (publication invokes the generation endpoint), the
entrepreneur dashboard offers "Retry AI Analysis" only on a failed pitch,
the pitch detail view offers "Generate AI Feedback" only on a published
pitch with no feedback row, owners may delete their pitches (the store
cascades), and the two voting flows and the vote-delete policy act on
`votes`. -/

inductive Event
  | saveDraftNew (pid uid : Nat) (fd : PitchFormData) (t : Nat)
  | saveDraftUpdate (pid : Nat) (fd : PitchFormData)
  | publishDraft (pid : Nat) (env : GenEnv) (now : Nat)
  | publishNew (pid uid : Nat) (fd : PitchFormData) (env : GenEnv) (now : Nat)
  | dashboardRetry (pid : Nat) (env : GenEnv) (now : Nat)
  | detailRetry (pid : Nat) (env : GenEnv) (now : Nat)
  | deletePitch (pid uid : Nat)
  | discoverVote (pid uid : Nat) (vt : VoteType)
  | detailVote (pid uid : Nat) (vt : VoteType)
  | deleteVote (pid uid : Nat)
deriving DecidableEq, Repr

/-- Apply one event: the updated store together with the
`ai_processing_status` writes performed, tagged by pitch id. -/
def stepEvent (db : DB) : Event → DB × List (Nat × AIStatus)
  | .saveDraftNew pid uid fd t =>
    if pitchIdExists db pid then (db, [])
    else ({ db with pitches := db.pitches ++ [newPitchRow pid uid fd .draft t] }, [])
  | .saveDraftUpdate pid fd =>
    match findPitch db pid with
    | some p =>
      if p.status = .draft then
        (updatePitch db pid fun q =>
          { q with title := fd.title
                   target_audience := fd.target_audience
                   pain_point := fd.pain_point
                   product_description := fd.product_description
                   elevator_pitch := fd.elevator_pitch
                   status := .draft }, [])
      else (db, [])
    | none => (db, [])
  | .publishDraft pid env now =>
    match findPitch db pid with
    | some p =>
      if p.status = .draft then
        let db1 := updatePitch db pid fun q => { q with status := .published }
        let r := generatePitchFeedback db1 (some pid) env now
        (r.db, r.writes.map ((pid, ·)))
      else (db, [])
    | none => (db, [])
  | .publishNew pid uid fd env now =>
    if pitchIdExists db pid then (db, [])
    else
      let db1 := { db with pitches := db.pitches ++ [newPitchRow pid uid fd .published now] }
      let r := generatePitchFeedback db1 (some pid) env now
      (r.db, r.writes.map ((pid, ·)))
  | .dashboardRetry pid env now =>
    match findPitch db pid with
    | some p =>
      if p.status = .published ∧ p.ai_processing_status = .failed then
        let r := generatePitchFeedback db (some pid) env now
        (r.db, r.writes.map ((pid, ·)))
      else (db, [])
    | none => (db, [])
  | .detailRetry pid env now =>
    match findPitch db pid with
    | some p =>
      if p.status = .published ∧ hasFeedback db pid = false then
        let r := generatePitchFeedback db (some pid) env now
        (r.db, r.writes.map ((pid, ·)))
      else (db, [])
    | none => (db, [])
  | .deletePitch pid uid =>
    match findPitch db pid with
    | some p =>
      if p.user_id = uid then
        ({ pitches := db.pitches.filter fun q => q.id != pid
           feedback := db.feedback.filter fun f => f.pitch_id != pid
           votes := db.votes.filter fun v => v.pitch_id != pid }, [])
      else (db, [])
    | none => (db, [])
  | .discoverVote pid uid vt => (DiscoverFeed.handleVote db pid uid vt, [])
  | .detailVote pid uid vt => (PitchDetailView.handleVote db pid uid vt, [])
  | .deleteVote pid uid =>
    ({ db with votes := db.votes.filter fun v => !pairMatches pid uid v }, [])

def applyEvent (db : DB) (e : Event) : DB :=
  (stepEvent db e).1

/-- The `ai_processing_status` values an event writes to the row of one
pitch, in order. -/
def eventWrites (db : DB) (e : Event) (pid : Nat) : List AIStatus :=
  (((stepEvent db e).2.filter fun w => w.1 == pid).map fun w => w.2)

/-- The stores reachable from the empty store through client flows. -/
inductive Reachable : DB → Prop
  | init : Reachable emptyDB
  | step (e : Event) {db : DB} : Reachable db → Reachable (applyEvent db e)

/-- One admissible evolution of a pitch's AI-processing status: either no
change, or an edge of the state machine pending → processing →
{completed | failed}, failed → processing. -/
def aiStep (a b : AIStatus) : Prop :=
  a = b ∨ (a = .pending ∧ b = .processing) ∨ (a = .failed ∧ b = .processing) ∨
    (a = .processing ∧ b = .completed) ∨ (a = .processing ∧ b = .failed)

/-! ## Sample data for concrete runs -/

def sampleForm : PitchFormData :=
  ⟨"EcoTrack", "Millennials", "Hard to shop sustainably", "A scanning app",
    "We help people shop sustainably."⟩

/-- A store holding one published pitch whose mock-feedback generation has
completed, reached from the empty store by submitting the pitch with no AI
credential configured. -/
def dbCompleted : DB :=
  applyEvent emptyDB (.publishNew 1 10 sampleForm ⟨none, .parsed mockFeedback⟩ 0)

/-- The pitch row of `dbCompleted`. -/
def samplePitchCompleted : PitchRow :=
  { id := 1, user_id := 10, title := sampleForm.title
    target_audience := sampleForm.target_audience
    pain_point := sampleForm.pain_point
    product_description := sampleForm.product_description
    elevator_pitch := sampleForm.elevator_pitch
    status := .published, ai_processing_status := .completed
    ai_processing_error := none, ai_processing_started_at := some 0
    ai_processing_completed_at := some 0, created_at := 0 }

/-- `dbCompleted` after a reviewer (user 20) voted 'interesting'. -/
def dbVoted : DB :=
  applyEvent dbCompleted (.discoverVote 1 20 .interesting)

/-- A published pitch in 'failed' status that nevertheless already has a
feedback row (the retry-after-partial-success edge case). -/
def samplePitchFailed : PitchRow :=
  { id := 2, user_id := 11, title := "T", target_audience := "A"
    pain_point := "P", product_description := "D", elevator_pitch := "E"
    status := .published, ai_processing_status := .failed
    ai_processing_error := some "prior failure"
    ai_processing_started_at := some 1, ai_processing_completed_at := some 2
    created_at := 0 }

def dbPriorFeedback : DB := ⟨[samplePitchFailed], [⟨2, mockFeedback⟩], []⟩

/-- A form whose elevator pitch is far below 250 words. -/
def shortForm : PitchFormData :=
  ⟨"Title", "Audience", "Pain", "Product", "way too short"⟩

/-- A store holding one saved draft (AI processing not yet started). -/
def dbDraft : DB := applyEvent emptyDB (.saveDraftNew 1 10 sampleForm 0)

/-- A store holding one published pitch awaiting generation, with no
feedback row. -/
def dbPendingPitch : DB := ⟨[newPitchRow 3 12 sampleForm .published 0], [], []⟩

/-- The store invariant maintained by the client flows: pitch ids are
unique (primary key), feedback pitch ids are unique (UNIQUE(pitch_id)),
a completed pitch has a feedback row, a draft pitch has not entered AI
processing, (pitch, voter) pairs are unique (UNIQUE(pitch_id, user_id)),
no accepted vote is a self-vote, and votes reference existing pitches
(foreign key). -/
structure Inv (db : DB) : Prop where
  pitchNodup : (db.pitches.map PitchRow.id).Nodup
  fbNodup : (db.feedback.map FeedbackRow.pitch_id).Nodup
  completedFb : ∀ p ∈ db.pitches, p.ai_processing_status = .completed →
    hasFeedback db p.id = true
  draftPending : ∀ p ∈ db.pitches, p.status = .draft →
    p.ai_processing_status = .pending
  voteNodup : (db.votes.map fun v => (v.pitch_id, v.user_id)).Nodup
  noSelfVote : ∀ v ∈ db.votes, ∀ p ∈ db.pitches,
    v.pitch_id = p.id → v.user_id ≠ p.user_id
  voteFK : ∀ v ∈ db.votes, pitchIdExists db v.pitch_id = true

/-! ## Helper lemmas about the store primitives -/

theorem updatePitch_feedback (db : DB) (pid : Nat) (f : PitchRow → PitchRow) :
    (updatePitch db pid f).feedback = db.feedback := rfl

theorem updatePitch_votes (db : DB) (pid : Nat) (f : PitchRow → PitchRow) :
    (updatePitch db pid f).votes = db.votes := rfl

theorem updatePitch_map_id (db : DB) (pid : Nat) (f : PitchRow → PitchRow)
    (hf : ∀ p, (f p).id = p.id) :
    (updatePitch db pid f).pitches.map PitchRow.id =
      db.pitches.map PitchRow.id := by
  simp only [updatePitch, List.map_map]
  refine List.map_congr_left fun p _ => ?_
  by_cases h : p.id = pid <;> simp [h, hf]

theorem mem_updatePitch {db : DB} {pid : Nat} {f : PitchRow → PitchRow} {q : PitchRow} :
    q ∈ (updatePitch db pid f).pitches ↔
      ∃ p ∈ db.pitches, q = if p.id == pid then f p else p := by
  simp only [updatePitch, List.mem_map, eq_comm]

theorem updatePitch_of_not_found {db : DB} {pid : Nat} (f : PitchRow → PitchRow)
    (h : findPitch db pid = none) : updatePitch db pid f = db := by
  have h' := List.find?_eq_none.mp h
  have hm : db.pitches.map (fun p => if p.id == pid then f p else p) = db.pitches := by
    conv_rhs => rw [← List.map_id db.pitches]
    refine List.map_congr_left fun p hp => ?_
    simp [h' p hp]
  unfold updatePitch
  rw [hm]

theorem findPitch_isSome_iff {db : DB} {pid : Nat} :
    (findPitch db pid).isSome ↔ ∃ p ∈ db.pitches, p.id = pid := by
  simp only [findPitch, List.find?_isSome, beq_iff_eq]

theorem findPitch_mem {db : DB} {pid : Nat} {p : PitchRow}
    (h : findPitch db pid = some p) : p ∈ db.pitches :=
  List.mem_of_find?_eq_some h

theorem findPitch_id {db : DB} {pid : Nat} {p : PitchRow}
    (h : findPitch db pid = some p) : p.id = pid := by
  have := List.find?_some h
  simpa using this

/-- With unique pitch ids, a member carrying the looked-up id is the
looked-up row. -/
theorem findPitch_unique {db : DB} {pid : Nat} {p q : PitchRow}
    (hN : (db.pitches.map PitchRow.id).Nodup)
    (h : findPitch db pid = some p) (hq : q ∈ db.pitches) (hid : q.id = pid) :
    q = p := by
  exact List.inj_on_of_nodup_map hN hq (findPitch_mem h)
    (by rw [hid, findPitch_id h])

theorem hasFeedback_updatePitch (db : DB) (pid pid' : Nat) (f : PitchRow → PitchRow) :
    hasFeedback (updatePitch db pid f) pid' = hasFeedback db pid' := rfl

theorem hasFeedback_insert (db : DB) (row : FeedbackRow) (pid : Nat) :
    hasFeedback (insertFeedback db row) pid =
      (hasFeedback db pid || (row.pitch_id == pid)) := by
  simp [hasFeedback, insertFeedback, List.any_append]

theorem fbCount_eq_count (db : DB) (pid : Nat) :
    fbCount db pid = (db.feedback.map FeedbackRow.pitch_id).count pid := by
  rw [fbCount, List.count, List.countP_map, ← List.countP_eq_length_filter]
  rfl

theorem fbCount_le_one_of_nodup {db : DB}
    (h : (db.feedback.map FeedbackRow.pitch_id).Nodup) (pid : Nat) :
    fbCount db pid ≤ 1 := by
  rw [fbCount_eq_count]
  exact List.nodup_iff_count_le_one.mp h pid

theorem fbCount_pos_of_hasFeedback {db : DB} {pid : Nat}
    (h : hasFeedback db pid = true) : 1 ≤ fbCount db pid := by
  rw [fbCount_eq_count]
  obtain ⟨f, hf, hfp⟩ := List.any_eq_true.mp h
  exact List.count_pos_iff.mpr
    (List.mem_map.mpr ⟨f, hf, by simpa using hfp⟩)

theorem updatePitch_updatePitch (db : DB) (pid : Nat)
    (f g : PitchRow → PitchRow) (hf : ∀ p, (f p).id = p.id) :
    updatePitch (updatePitch db pid f) pid g =
      updatePitch db pid fun p => g (f p) := by
  unfold updatePitch
  simp only [List.map_map]
  congr 1
  refine List.map_congr_left fun p _ => ?_
  by_cases h : p.id = pid <;> simp [Function.comp, h, hf]

theorem insertFeedback_updatePitch (db : DB) (pid : Nat)
    (f : PitchRow → PitchRow) (row : FeedbackRow) :
    insertFeedback (updatePitch db pid f) row =
      updatePitch (insertFeedback db row) pid f := rfl

theorem findPitch_updatePitch (db : DB) (pid pid' : Nat)
    (f : PitchRow → PitchRow) (hf : ∀ p, (f p).id = p.id) :
    findPitch (updatePitch db pid f) pid' =
      (findPitch db pid').map fun p => if p.id == pid then f p else p := by
  unfold findPitch updatePitch
  rw [List.find?_map]
  have hq : ((fun p : PitchRow => p.id == pid') ∘ fun p =>
      if p.id == pid then f p else p) = fun p : PitchRow => p.id == pid' := by
    funext p
    by_cases h : p.id = pid <;> simp [Function.comp, h, hf]
  rw [hq]

theorem pitchIdExists_updatePitch (db : DB) (pid pid' : Nat)
    (f : PitchRow → PitchRow) (hf : ∀ p, (f p).id = p.id) :
    pitchIdExists (updatePitch db pid f) pid' = pitchIdExists db pid' := by
  unfold pitchIdExists updatePitch
  rw [List.any_map]
  congr 1
  funext p
  by_cases h : p.id = pid <;> simp [Function.comp, h, hf]

theorem pitchIdExists_eq_isSome (db : DB) (pid : Nat) :
    pitchIdExists db pid = (findPitch db pid).isSome := by
  unfold pitchIdExists findPitch
  induction db.pitches with
  | nil => rfl
  | cons p ps ih =>
    by_cases h : p.id == pid <;> simp [List.find?_cons, h, ih]

/-- Every run of the handler on a present `pitch_id` has one of three
shapes: 404 with the store unchanged, the catch block (500, pitch marked
failed), or the success path (200, feedback inserted, pitch completed). -/
theorem generate_cases (db : DB) (pid : Nat) (env : GenEnv) (now : Nat) :
    (findPitch db pid = none ∧
      generatePitchFeedback db (some pid) env now =
        { response := .notFound "Pitch not found", db := db, writes := [] })
    ∨ (∃ msg, generatePitchFeedback db (some pid) env now =
        { response := .serverError msg
          db := setFailed (setProcessing db pid now) pid msg now
          writes := [.processing, .failed] })
    ∨ (∃ fb, hasFeedback db pid = false ∧
        generatePitchFeedback db (some pid) env now =
          { response := .ok fb
            db := setCompleted (insertFeedback (setProcessing db pid now)
              ⟨pid, fb⟩) pid now
            writes := [.processing, .completed] }) := by
  cases hfp : findPitch (setProcessing db pid now) pid with
  | none =>
    have h0 : findPitch db pid = none := by
      unfold setProcessing at hfp
      rw [findPitch_updatePitch db pid pid
        (fun p => { p with ai_processing_status := .processing
                           ai_processing_started_at := some now })
        (fun _ => rfl)] at hfp
      exact Option.map_eq_none'.mp hfp
    have hset : setProcessing db pid now = db := by
      unfold setProcessing
      exact updatePitch_of_not_found _ h0
    have hrun : generatePitchFeedback db (some pid) env now =
        { response := .notFound "Pitch not found"
          db := setProcessing db pid now, writes := [] } := by
      simp only [generatePitchFeedback, hfp]
    left
    exact ⟨h0, by rw [hrun, hset]⟩
  | some p =>
    right
    have hhf : hasFeedback (setProcessing db pid now) pid = hasFeedback db pid := rfl
    have hrun : generatePitchFeedback db (some pid) env now =
        (match env.openaiApiKey with
         | none => genInsertAndComplete (setProcessing db pid now) pid mockFeedback now
         | some _ =>
           match env.aiOutcome with
           | .httpError st body =>
             genFail (setProcessing db pid now) pid
               ("OpenAI API error: " ++ toString st ++ " - " ++ body) now [.processing]
           | .malformedJson m =>
             genFail (setProcessing db pid now) pid m now [.processing]
           | .parsed fb =>
             genInsertAndComplete (setProcessing db pid now) pid fb now) := by
      simp only [generatePitchFeedback, hfp]
    cases hk : env.openaiApiKey with
    | none =>
      rw [hk] at hrun
      by_cases hf : hasFeedback db pid
      · left
        refine ⟨errMessage uniqueViolationMsg, ?_⟩
        rw [hrun]
        simp [genInsertAndComplete, genFail, hhf, hf]
      · right
        refine ⟨mockFeedback, by simpa using hf, ?_⟩
        rw [hrun]
        simp [genInsertAndComplete, hhf, hf]
    | some key =>
      rw [hk] at hrun
      cases hai : env.aiOutcome with
      | httpError st body =>
        rw [hai] at hrun
        exact .inl ⟨errMessage ("OpenAI API error: " ++ toString st ++ " - " ++ body),
          by rw [hrun]; simp [genFail]⟩
      | malformedJson m =>
        rw [hai] at hrun
        exact .inl ⟨errMessage m, by rw [hrun]; simp [genFail]⟩
      | parsed fb =>
        rw [hai] at hrun
        by_cases hf : hasFeedback db pid
        · left
          refine ⟨errMessage uniqueViolationMsg, ?_⟩
          rw [hrun]
          simp [genInsertAndComplete, genFail, hhf, hf]
        · right
          refine ⟨fb, by simpa using hf, ?_⟩
          rw [hrun]
          simp [genInsertAndComplete, hhf, hf]

/-! ## Preservation of the store invariant -/

theorem inv_updatePitch_general {db : DB} (hI : Inv db) (pid : Nat)
    (g : PitchRow → PitchRow)
    (hid : ∀ p, (g p).id = p.id)
    (huser : ∀ p, (g p).user_id = p.user_id)
    (hstatus : ∀ p, (g p).status = p.status)
    (hpub : ∀ p ∈ db.pitches, p.id = pid → p.status = .published)
    (hcomp : ∀ p ∈ db.pitches, p.id = pid →
      (g p).ai_processing_status = .completed → hasFeedback db pid = true) :
    Inv (updatePitch db pid g) := by
  constructor
  · rw [updatePitch_map_id db pid g hid]
    exact hI.pitchNodup
  · exact hI.fbNodup
  · intro q hq hcq
    obtain ⟨p, hp, hqe⟩ := mem_updatePitch.mp hq
    rw [hasFeedback_updatePitch]
    by_cases h : p.id = pid
    · rw [if_pos (by simpa using h)] at hqe
      subst hqe
      rw [hid, h]
      exact hcomp p hp h hcq
    · rw [if_neg (by simpa using h)] at hqe
      subst hqe
      exact hI.completedFb _ hp hcq
  · intro q hq hdq
    obtain ⟨p, hp, hqe⟩ := mem_updatePitch.mp hq
    by_cases h : p.id = pid
    · rw [if_pos (by simpa using h)] at hqe
      subst hqe
      rw [hstatus] at hdq
      rw [hpub p hp h] at hdq
      cases hdq
    · rw [if_neg (by simpa using h)] at hqe
      subst hqe
      exact hI.draftPending _ hp hdq
  · exact hI.voteNodup
  · intro v hv q hq hvq
    obtain ⟨p, hp, hqe⟩ := mem_updatePitch.mp hq
    by_cases h : p.id = pid
    · rw [if_pos (by simpa using h)] at hqe
      subst hqe
      rw [huser]
      exact hI.noSelfVote v hv p hp (by rw [hvq, hid])
    · rw [if_neg (by simpa using h)] at hqe
      subst hqe
      exact hI.noSelfVote v hv _ hp hvq
  · intro v hv
    rw [pitchIdExists_updatePitch db pid _ g hid]
    exact hI.voteFK v hv

theorem hasFeedback_false_not_mem {db : DB} {pid : Nat}
    (h : hasFeedback db pid = false) :
    pid ∉ db.feedback.map FeedbackRow.pitch_id := by
  intro hmem
  obtain ⟨f, hf, hfp⟩ := List.mem_map.mp hmem
  have : db.feedback.any (fun g => g.pitch_id == pid) = true :=
    List.any_eq_true.mpr ⟨f, hf, by simpa using hfp⟩
  rw [hasFeedback] at h
  rw [h] at this
  cases this

theorem inv_insertFeedback {db : DB} (hI : Inv db) {pid : Nat}
    (fb : FeedbackContent) (hnofb : hasFeedback db pid = false) :
    Inv (insertFeedback db ⟨pid, fb⟩) := by
  constructor
  · exact hI.pitchNodup
  · show ((db.feedback ++ [(⟨pid, fb⟩ : FeedbackRow)]).map FeedbackRow.pitch_id).Nodup
    rw [List.map_append]
    simp only [List.nodup_append, List.map_cons, List.map_nil]
    refine ⟨hI.fbNodup, by simp, ?_⟩
    intro x hx
    simp only [List.mem_cons, List.not_mem_nil, or_false]
    rintro rfl
    exact hasFeedback_false_not_mem hnofb hx
  · intro p hp hc
    rw [hasFeedback_insert]
    rw [hI.completedFb p hp hc]
    rfl
  · exact hI.draftPending
  · exact hI.voteNodup
  · exact hI.noSelfVote
  · exact hI.voteFK

/-- A handler run preserves the store invariant whenever every pitch row
carrying the requested id is published. -/
theorem inv_generate {db : DB} (pid : Nat) (env : GenEnv) (now : Nat)
    (hI : Inv db)
    (hpub : ∀ p ∈ db.pitches, p.id = pid → p.status = .published) :
    Inv (generatePitchFeedback db (some pid) env now).db := by
  rcases generate_cases db pid env now with ⟨h0, heq⟩ | ⟨msg, heq⟩ | ⟨fb, hnofb, heq⟩
  · rw [heq]
    exact hI
  · rw [heq]
    unfold setFailed setProcessing
    rw [updatePitch_updatePitch db pid
      (fun p => { p with ai_processing_status := .processing
                         ai_processing_started_at := some now })
      _ (fun _ => rfl)]
    refine inv_updatePitch_general hI pid _ (fun _ => rfl) (fun _ => rfl)
      (fun _ => rfl) hpub ?_
    intro p _ _ hcontr
    cases hcontr
  · rw [heq]
    unfold setCompleted setProcessing
    rw [insertFeedback_updatePitch, updatePitch_updatePitch _ pid
      (fun p => { p with ai_processing_status := .processing
                         ai_processing_started_at := some now })
      _ (fun _ => rfl)]
    refine inv_updatePitch_general (inv_insertFeedback hI fb hnofb) pid _
      (fun _ => rfl) (fun _ => rfl) (fun _ => rfl) (fun p hp => hpub p hp) ?_
    intro p _ _ _
    rw [hasFeedback_insert]
    simp

theorem pitchIdExists_false_not_mem {db : DB} {pid : Nat}
    (h : pitchIdExists db pid = false) :
    pid ∉ db.pitches.map PitchRow.id := by
  intro hmem
  obtain ⟨p, hp, hpi⟩ := List.mem_map.mp hmem
  have : db.pitches.any (fun q => q.id == pid) = true :=
    List.any_eq_true.mpr ⟨p, hp, by simpa using hpi⟩
  rw [pitchIdExists] at h
  rw [h] at this
  cases this

theorem hasVote_false_not_mem {db : DB} {pid uid : Nat}
    (h : hasVote db pid uid = false) :
    (pid, uid) ∉ db.votes.map fun v => (v.pitch_id, v.user_id) := by
  intro hmem
  obtain ⟨v, hv, hvp⟩ := List.mem_map.mp hmem
  have : db.votes.any (pairMatches pid uid) = true := by
    refine List.any_eq_true.mpr ⟨v, hv, ?_⟩
    have h1 : v.pitch_id = pid := congrArg Prod.fst hvp
    have h2 : v.user_id = uid := congrArg Prod.snd hvp
    simp [pairMatches, h1, h2]
  rw [hasVote] at h
  rw [h] at this
  cases this

theorem pitchIdExists_of_find {db : DB} {pid : Nat} {p : PitchRow}
    (h : findPitch db pid = some p) : pitchIdExists db pid = true := by
  rw [pitchIdExists_eq_isSome, h]
  rfl

theorem inv_appendPitch {db : DB} (hI : Inv db) {pid : Nat} (uid : Nat)
    (fd : PitchFormData) (st : PitchStatus) (t : Nat)
    (hfresh : pitchIdExists db pid = false) :
    Inv { db with pitches := db.pitches ++ [newPitchRow pid uid fd st t] } := by
  constructor
  · show ((db.pitches ++ [newPitchRow pid uid fd st t]).map PitchRow.id).Nodup
    rw [List.map_append]
    simp only [List.nodup_append, List.map_cons, List.map_nil]
    refine ⟨hI.pitchNodup, by simp, ?_⟩
    intro x hx
    simp only [List.mem_cons, List.not_mem_nil, or_false]
    rintro rfl
    exact pitchIdExists_false_not_mem hfresh hx
  · exact hI.fbNodup
  · intro p hp hc
    rcases List.mem_append.mp hp with hp | hp
    · exact hI.completedFb p hp hc
    · rw [List.mem_singleton.mp hp] at hc
      cases hc
  · intro p hp hd
    rcases List.mem_append.mp hp with hp | hp
    · exact hI.draftPending p hp hd
    · rw [List.mem_singleton.mp hp]
      rfl
  · exact hI.voteNodup
  · intro v hv p hp hvp
    rcases List.mem_append.mp hp with hp | hp
    · exact hI.noSelfVote v hv p hp hvp
    · exfalso
      rw [List.mem_singleton.mp hp] at hvp
      have := hI.voteFK v hv
      rw [hvp] at this
      rw [show (newPitchRow pid uid fd st t).id = pid from rfl] at this
      rw [hfresh] at this
      cases this
  · intro v hv
    have := hI.voteFK v hv
    show ((db.pitches ++ [newPitchRow pid uid fd st t]).any
      fun q => q.id == v.pitch_id) = true
    rw [List.any_append]
    rw [show db.pitches.any (fun q => q.id == v.pitch_id) = true from this]
    rfl

theorem inv_setPublished {db : DB} (hI : Inv db) (pid : Nat) :
    Inv (updatePitch db pid fun q => { q with status := .published }) := by
  constructor
  · rw [updatePitch_map_id db pid (fun q => { q with status := PitchStatus.published }) (fun _ => rfl)]
    exact hI.pitchNodup
  · exact hI.fbNodup
  · intro q hq hcq
    obtain ⟨p, hp, hqe⟩ := mem_updatePitch.mp hq
    rw [hasFeedback_updatePitch]
    by_cases h : p.id = pid
    · rw [if_pos (by simpa using h)] at hqe
      subst hqe
      exact hI.completedFb p hp hcq
    · rw [if_neg (by simpa using h)] at hqe
      subst hqe
      exact hI.completedFb _ hp hcq
  · intro q hq hdq
    obtain ⟨p, hp, hqe⟩ := mem_updatePitch.mp hq
    by_cases h : p.id = pid
    · rw [if_pos (by simpa using h)] at hqe
      subst hqe
      cases hdq
    · rw [if_neg (by simpa using h)] at hqe
      subst hqe
      exact hI.draftPending _ hp hdq
  · exact hI.voteNodup
  · intro v hv q hq hvq
    obtain ⟨p, hp, hqe⟩ := mem_updatePitch.mp hq
    by_cases h : p.id = pid
    · rw [if_pos (by simpa using h)] at hqe
      subst hqe
      exact hI.noSelfVote v hv p hp hvq
    · rw [if_neg (by simpa using h)] at hqe
      subst hqe
      exact hI.noSelfVote v hv _ hp hvq
  · intro v hv
    rw [pitchIdExists_updatePitch db pid v.pitch_id (fun q => { q with status := PitchStatus.published }) (fun _ => rfl)]
    exact hI.voteFK v hv

theorem inv_updateDraftFields {db : DB} (hI : Inv db) {pid : Nat} {p : PitchRow}
    (fd : PitchFormData) (hfp : findPitch db pid = some p)
    (hd : p.status = .draft) :
    Inv (updatePitch db pid fun q =>
      { q with title := fd.title
               target_audience := fd.target_audience
               pain_point := fd.pain_point
               product_description := fd.product_description
               elevator_pitch := fd.elevator_pitch
               status := .draft }) := by
  constructor
  · rw [updatePitch_map_id db pid (fun q => { q with title := fd.title, target_audience := fd.target_audience, pain_point := fd.pain_point, product_description := fd.product_description, elevator_pitch := fd.elevator_pitch, status := PitchStatus.draft }) (fun _ => rfl)]
    exact hI.pitchNodup
  · exact hI.fbNodup
  · intro q hq hcq
    obtain ⟨r, hr, hqe⟩ := mem_updatePitch.mp hq
    rw [hasFeedback_updatePitch]
    by_cases h : r.id = pid
    · rw [if_pos (by simpa using h)] at hqe
      subst hqe
      exact hI.completedFb r hr hcq
    · rw [if_neg (by simpa using h)] at hqe
      subst hqe
      exact hI.completedFb _ hr hcq
  · intro q hq hdq
    obtain ⟨r, hr, hqe⟩ := mem_updatePitch.mp hq
    by_cases h : r.id = pid
    · rw [if_pos (by simpa using h)] at hqe
      subst hqe
      have hrp : r = p := findPitch_unique hI.pitchNodup hfp hr h
      show r.ai_processing_status = .pending
      exact hI.draftPending r hr (by rw [hrp]; exact hd)
    · rw [if_neg (by simpa using h)] at hqe
      subst hqe
      exact hI.draftPending _ hr hdq
  · exact hI.voteNodup
  · intro v hv q hq hvq
    obtain ⟨r, hr, hqe⟩ := mem_updatePitch.mp hq
    by_cases h : r.id = pid
    · rw [if_pos (by simpa using h)] at hqe
      subst hqe
      exact hI.noSelfVote v hv r hr hvq
    · rw [if_neg (by simpa using h)] at hqe
      subst hqe
      exact hI.noSelfVote v hv _ hr hvq
  · intro v hv
    rw [pitchIdExists_updatePitch db pid v.pitch_id (fun q => { q with title := fd.title, target_audience := fd.target_audience, pain_point := fd.pain_point, product_description := fd.product_description, elevator_pitch := fd.elevator_pitch, status := PitchStatus.draft }) (fun _ => rfl)]
    exact hI.voteFK v hv

theorem inv_deletePitch {db : DB} (hI : Inv db) (pid : Nat) :
    Inv { pitches := db.pitches.filter fun q => q.id != pid
          feedback := db.feedback.filter fun f => f.pitch_id != pid
          votes := db.votes.filter fun v => v.pitch_id != pid } := by
  constructor
  · exact ((List.filter_sublist _).map PitchRow.id).nodup hI.pitchNodup
  · exact ((List.filter_sublist _).map FeedbackRow.pitch_id).nodup hI.fbNodup
  · intro p hp hc
    obtain ⟨hp', hpne⟩ := List.mem_filter.mp hp
    obtain ⟨f, hf, hfp⟩ := List.any_eq_true.mp (hI.completedFb p hp' hc)
    refine List.any_eq_true.mpr ⟨f, List.mem_filter.mpr ⟨hf, ?_⟩, hfp⟩
    have : f.pitch_id = p.id := by simpa using hfp
    simp only [bne_iff_ne, ne_eq, this]
    simpa using hpne
  · intro p hp hd
    exact hI.draftPending p (List.mem_filter.mp hp).1 hd
  · exact ((List.filter_sublist _).map _).nodup hI.voteNodup
  · intro v hv p hp hvp
    exact hI.noSelfVote v (List.mem_filter.mp hv).1 p (List.mem_filter.mp hp).1 hvp
  · intro v hv
    obtain ⟨hv', hvne⟩ := List.mem_filter.mp hv
    obtain ⟨q, hq, hqi⟩ := List.any_eq_true.mp (hI.voteFK v hv')
    refine List.any_eq_true.mpr ⟨q, List.mem_filter.mpr ⟨hq, ?_⟩, hqi⟩
    have : q.id = v.pitch_id := by simpa using hqi
    simp only [bne_iff_ne, ne_eq, this]
    simpa using hvne

theorem inv_insertVote {db : DB} (hI : Inv db) {pid uid : Nat} {p : PitchRow}
    (vt : VoteType) (hfp : findPitch db pid = some p)
    (howner : p.user_id ≠ uid) (hnew : hasVote db pid uid = false) :
    Inv { db with votes := db.votes ++ [⟨pid, uid, vt⟩] } := by
  constructor
  · exact hI.pitchNodup
  · exact hI.fbNodup
  · exact hI.completedFb
  · exact hI.draftPending
  · show ((db.votes ++ [(⟨pid, uid, vt⟩ : VoteRow)]).map
      fun v => (v.pitch_id, v.user_id)).Nodup
    rw [List.map_append]
    simp only [List.nodup_append, List.map_cons, List.map_nil]
    refine ⟨hI.voteNodup, by simp, ?_⟩
    intro x hx
    simp only [List.mem_cons, List.not_mem_nil, or_false]
    rintro rfl
    exact hasVote_false_not_mem hnew hx
  · intro v hv q hq hvq
    rcases List.mem_append.mp hv with hv | hv
    · exact hI.noSelfVote v hv q hq hvq
    · rw [List.mem_singleton.mp hv] at hvq ⊢
      have hqp : q = p := findPitch_unique hI.pitchNodup hfp hq hvq.symm
      show uid ≠ q.user_id
      rw [hqp]
      exact fun h => howner h.symm
  · intro v hv
    rcases List.mem_append.mp hv with hv | hv
    · exact hI.voteFK v hv
    · rw [List.mem_singleton.mp hv]
      exact pitchIdExists_of_find hfp

theorem inv_mapVoteType {db : DB} (hI : Inv db) (pid uid : Nat) (vt : VoteType) :
    Inv { db with votes := db.votes.map fun v =>
      if pairMatches pid uid v then { v with vote_type := vt } else v } := by
  have hpair : ∀ v : VoteRow,
      ((if pairMatches pid uid v then { v with vote_type := vt } else v).pitch_id,
       (if pairMatches pid uid v then { v with vote_type := vt } else v).user_id)
        = (v.pitch_id, v.user_id) := by
    intro v
    by_cases h : pairMatches pid uid v <;> simp [h]
  constructor
  · exact hI.pitchNodup
  · exact hI.fbNodup
  · exact hI.completedFb
  · exact hI.draftPending
  · show (((db.votes.map fun v =>
      if pairMatches pid uid v then { v with vote_type := vt } else v).map
        fun v => (v.pitch_id, v.user_id))).Nodup
    rw [List.map_map]
    have : ((fun v : VoteRow => (v.pitch_id, v.user_id)) ∘ fun v =>
        if pairMatches pid uid v then { v with vote_type := vt } else v) =
        fun v : VoteRow => (v.pitch_id, v.user_id) := by
      funext v
      exact hpair v
    rw [this]
    exact hI.voteNodup
  · intro v hv q hq hvq
    obtain ⟨w, hw, hwe⟩ := List.mem_map.mp hv
    have h1 : v.pitch_id = w.pitch_id := by
      rw [← hwe]
      exact congrArg Prod.fst (hpair w)
    have h2 : v.user_id = w.user_id := by
      rw [← hwe]
      exact congrArg Prod.snd (hpair w)
    rw [h1] at hvq
    rw [h2]
    exact hI.noSelfVote w hw q hq hvq
  · intro v hv
    obtain ⟨w, hw, hwe⟩ := List.mem_map.mp hv
    have h1 : v.pitch_id = w.pitch_id := by
      rw [← hwe]
      exact congrArg Prod.fst (hpair w)
    rw [h1]
    exact hI.voteFK w hw

theorem inv_filterVotes {db : DB} (hI : Inv db) (q : VoteRow → Bool) :
    Inv { db with votes := db.votes.filter q } := by
  constructor
  · exact hI.pitchNodup
  · exact hI.fbNodup
  · exact hI.completedFb
  · exact hI.draftPending
  · exact ((List.filter_sublist _).map _).nodup hI.voteNodup
  · intro v hv r hr hvr
    exact hI.noSelfVote v (List.mem_filter.mp hv).1 r hr hvr
  · intro v hv
    exact hI.voteFK v (List.mem_filter.mp hv).1

/-- Every client-flow event preserves the store invariant. -/
theorem inv_applyEvent {db : DB} (hI : Inv db) (e : Event) :
    Inv (applyEvent db e) := by
  cases e with
  | saveDraftNew pid uid fd t =>
    simp only [applyEvent, stepEvent]
    by_cases h : pitchIdExists db pid
    · rw [if_pos h]
      exact hI
    · rw [if_neg h]
      exact inv_appendPitch hI uid fd .draft t (by simpa using h)
  | saveDraftUpdate pid fd =>
    simp only [applyEvent, stepEvent]
    cases hfp : findPitch db pid with
    | none =>
      simp only [hfp]
      exact hI
    | some p =>
      simp only [hfp]
      by_cases hg : p.status = .draft
      · rw [if_pos hg]
        exact inv_updateDraftFields hI fd hfp hg
      · rw [if_neg hg]
        exact hI
  | publishDraft pid env now =>
    simp only [applyEvent, stepEvent]
    cases hfp : findPitch db pid with
    | none =>
      simp only [hfp]
      exact hI
    | some p =>
      simp only [hfp]
      by_cases hg : p.status = .draft
      · rw [if_pos hg]
        refine inv_generate pid env now (inv_setPublished hI pid) ?_
        intro q hq hqid
        obtain ⟨r, hr, hqe⟩ := mem_updatePitch.mp hq
        by_cases h : r.id = pid
        · rw [if_pos (by simpa using h)] at hqe
          subst hqe
          rfl
        · rw [if_neg (by simpa using h)] at hqe
          subst hqe
          exact absurd hqid h
      · rw [if_neg hg]
        exact hI
  | publishNew pid uid fd env now =>
    simp only [applyEvent, stepEvent]
    by_cases h : pitchIdExists db pid
    · rw [if_pos h]
      exact hI
    · rw [if_neg h]
      refine inv_generate pid env now
        (inv_appendPitch hI uid fd .published now (by simpa using h)) ?_

      intro q hq hqid
      rcases List.mem_append.mp hq with hq | hq
      · exact absurd (hqid ▸ List.mem_map_of_mem PitchRow.id hq)
          (pitchIdExists_false_not_mem (by simpa using h))
      · rw [List.mem_singleton.mp hq]
        rfl
  | dashboardRetry pid env now =>
    simp only [applyEvent, stepEvent]
    cases hfp : findPitch db pid with
    | none =>
      simp only [hfp]
      exact hI
    | some p =>
      simp only [hfp]
      by_cases hg : p.status = .published ∧ p.ai_processing_status = .failed
      · rw [if_pos hg]
        refine inv_generate pid env now hI ?_
        intro q hq hqid
        rw [findPitch_unique hI.pitchNodup hfp hq hqid]
        exact hg.1
      · rw [if_neg hg]
        exact hI
  | detailRetry pid env now =>
    simp only [applyEvent, stepEvent]
    cases hfp : findPitch db pid with
    | none =>
      simp only [hfp]
      exact hI
    | some p =>
      simp only [hfp]
      by_cases hg : p.status = .published ∧ hasFeedback db pid = false
      · rw [if_pos hg]
        refine inv_generate pid env now hI ?_
        intro q hq hqid
        rw [findPitch_unique hI.pitchNodup hfp hq hqid]
        exact hg.1
      · rw [if_neg hg]
        exact hI
  | deletePitch pid uid =>
    simp only [applyEvent, stepEvent]
    cases hfp : findPitch db pid with
    | none =>
      simp only [hfp]
      exact hI
    | some p =>
      simp only [hfp]
      by_cases hg : p.user_id = uid
      · rw [if_pos hg]
        exact inv_deletePitch hI pid
      · rw [if_neg hg]
        exact hI
  | discoverVote pid uid vt =>
    simp only [applyEvent, stepEvent, DiscoverFeed.handleVote]
    cases hfp : findPitch db pid with
    | none =>
      simp only [hfp]
      exact hI
    | some p =>
      simp only [hfp]
      by_cases hg : p.user_id ≠ uid ∧ hasVote db pid uid = false
      · rw [if_pos hg]
        exact inv_insertVote hI vt hfp hg.1 hg.2
      · rw [if_neg hg]
        exact hI
  | detailVote pid uid vt =>
    simp only [applyEvent, stepEvent, PitchDetailView.handleVote]
    cases hfp : findPitch db pid with
    | none =>
      simp only [hfp]
      exact hI
    | some p =>
      simp only [hfp]
      by_cases hown : p.user_id = uid
      · rw [if_pos hown]
        exact hI
      · rw [if_neg hown]
        by_cases hhv : hasVote db pid uid
        · rw [if_pos hhv]
          exact inv_mapVoteType hI pid uid vt
        · rw [if_neg hhv]
          exact inv_insertVote hI vt hfp hown (by simpa using hhv)
  | deleteVote pid uid =>
    simp only [applyEvent, stepEvent]
    exact inv_filterVotes hI _

/-- The store invariant holds in every reachable store. -/
theorem inv_reachable {db : DB} (h : Reachable db) : Inv db := by
  induction h with
  | init =>
    constructor <;> simp [emptyDB]
  | step e hdb ih =>
    exact inv_applyEvent ih e

/-! ## Row tracking across one event (for the state-machine claims) -/

theorem row_eq_of_nodup {db : DB} (hN : (db.pitches.map PitchRow.id).Nodup)
    {p q : PitchRow} (hp : p ∈ db.pitches) (hq : q ∈ db.pitches)
    (hid : q.id = p.id) : q = p :=
  List.inj_on_of_nodup_map hN hq hp hid

theorem mem_updatePitch_of_ne {db : DB} {pid : Nat} {g : PitchRow → PitchRow}
    {p : PitchRow} (hp : p ∈ db.pitches) (hne : p.id ≠ pid) :
    p ∈ (updatePitch db pid g).pitches := by
  refine mem_updatePitch.mpr ⟨p, hp, ?_⟩
  rw [if_neg (by simpa using hne)]

/-- Rows with an id different from the requested one are untouched by a
handler run. -/
theorem generate_nontarget_row {db : DB} {pid : Nat} {env : GenEnv} {now : Nat}
    (hN : (db.pitches.map PitchRow.id).Nodup) {p q : PitchRow}
    (hp : p ∈ db.pitches)
    (hq : q ∈ (generatePitchFeedback db (some pid) env now).db.pitches)
    (hqid : q.id = p.id) (hne : p.id ≠ pid) : q = p := by
  rcases generate_cases db pid env now with ⟨h0, heq⟩ | ⟨msg, heq⟩ | ⟨fb, hnofb, heq⟩
  · rw [heq] at hq
    exact row_eq_of_nodup hN hp hq hqid
  · rw [heq] at hq
    simp only at hq
    obtain ⟨r1, hr1, hqe1⟩ := mem_updatePitch.mp hq
    obtain ⟨r0, hr0, hqe0⟩ := mem_updatePitch.mp hr1
    have hr1id : r1.id = r0.id := by
      by_cases h : r0.id = pid
      · rw [if_pos (by simpa using h)] at hqe0
        rw [hqe0]
      · rw [if_neg (by simpa using h)] at hqe0
        rw [hqe0]
    have hqid1 : q.id = r1.id := by
      by_cases h : r1.id = pid
      · rw [if_pos (by simpa using h)] at hqe1
        rw [hqe1]
      · rw [if_neg (by simpa using h)] at hqe1
        rw [hqe1]
    have hr0p : r0 = p := row_eq_of_nodup hN hp hr0 (by rw [← hr1id, ← hqid1, hqid])
    subst hr0p
    rw [if_neg (by simpa using hne)] at hqe0
    subst hqe0
    rw [if_neg (by simpa using hne)] at hqe1
    exact hqe1
  · rw [heq] at hq
    simp only at hq
    obtain ⟨r1, hr1, hqe1⟩ := mem_updatePitch.mp hq
    obtain ⟨r0, hr0, hqe0⟩ := mem_updatePitch.mp hr1
    have hr1id : r1.id = r0.id := by
      by_cases h : r0.id = pid
      · rw [if_pos (by simpa using h)] at hqe0
        rw [hqe0]
      · rw [if_neg (by simpa using h)] at hqe0
        rw [hqe0]
    have hqid1 : q.id = r1.id := by
      by_cases h : r1.id = pid
      · rw [if_pos (by simpa using h)] at hqe1
        rw [hqe1]
      · rw [if_neg (by simpa using h)] at hqe1
        rw [hqe1]
    have hr0p : r0 = p :=
      row_eq_of_nodup hN hp (show r0 ∈ db.pitches from hr0)
        (by rw [← hr1id, ← hqid1, hqid])
    subst hr0p
    rw [if_neg (by simpa using hne)] at hqe0
    subst hqe0
    rw [if_neg (by simpa using hne)] at hqe1
    exact hqe1

theorem writesFor_map (l : List AIStatus) (pid x : Nat) :
    (((l.map ((pid, ·))).filter fun w => w.1 == x).map fun w => w.2) =
      if pid = x then l else [] := by
  induction l with
  | nil => simp
  | cons a l ih =>
    by_cases h : pid = x
    · simp [h] at ih ⊢
      exact ih
    · simp [h] at ih ⊢

theorem aiStep_to_processing {s : AIStatus} (hs : s ≠ .completed) :
    aiStep s .processing := by
  cases s with
  | pending => exact Or.inr (Or.inl ⟨rfl, rfl⟩)
  | processing => exact Or.inl rfl
  | failed => exact Or.inr (Or.inr (Or.inl ⟨rfl, rfl⟩))
  | completed => exact absurd rfl hs

theorem chain_aiStep_run {s x : AIStatus} (hs : s ≠ .completed)
    (hx : x = .completed ∨ x = .failed) :
    List.Chain' aiStep [s, .processing, x] := by
  refine List.chain'_cons.mpr ⟨aiStep_to_processing hs, ?_⟩
  refine List.chain'_cons.mpr ⟨?_, List.chain'_singleton x⟩
  rcases hx with rfl | rfl
  · exact Or.inr (Or.inr (Or.inr (Or.inl ⟨rfl, rfl⟩)))
  · exact Or.inr (Or.inr (Or.inr (Or.inr ⟨rfl, rfl⟩)))

theorem ne_of_fresh {db : DB} {pid : Nat} (h : pitchIdExists db pid = false)
    {p : PitchRow} (hp : p ∈ db.pitches) : p.id ≠ pid := fun he =>
  pitchIdExists_false_not_mem h (he ▸ List.mem_map_of_mem PitchRow.id hp)

theorem detail_handleVote_pitches (db : DB) (pid uid : Nat) (vt : VoteType) :
    (PitchDetailView.handleVote db pid uid vt).pitches = db.pitches := by
  unfold PitchDetailView.handleVote
  cases hfp : findPitch db pid with
  | none => simp only [hfp]
  | some p =>
    simp only [hfp]
    split_ifs <;> rfl

theorem discover_handleVote_pitches (db : DB) (pid uid : Nat) (vt : VoteType) :
    (DiscoverFeed.handleVote db pid uid vt).pitches = db.pitches := by
  unfold DiscoverFeed.handleVote
  cases hfp : findPitch db pid with
  | none => simp only [hfp]
  | some p =>
    simp only [hfp]
    split_ifs <;> rfl

/-- In a reachable store, no client-flow event ever changes the
AI-processing status of a pitch that is in 'completed'. -/
theorem completed_stable_event {db : DB} (hI : Inv db) (e : Event) :
    ∀ p ∈ db.pitches, p.ai_processing_status = .completed →
      ∀ q ∈ (applyEvent db e).pitches, q.id = p.id →
        q.ai_processing_status = .completed := by
  intro p hp hc q hq hqid
  cases e with
  | saveDraftNew pid uid fd t =>
    simp only [applyEvent, stepEvent] at hq
    by_cases h : pitchIdExists db pid
    · rw [if_pos h] at hq
      rw [row_eq_of_nodup hI.pitchNodup hp hq hqid]
      exact hc
    · rw [if_neg h] at hq
      rcases List.mem_append.mp hq with hq | hq
      · rw [row_eq_of_nodup hI.pitchNodup hp hq hqid]
        exact hc
      · exfalso
        rw [List.mem_singleton.mp hq] at hqid
        exact ne_of_fresh (by simpa using h) hp hqid.symm
  | saveDraftUpdate pid fd =>
    simp only [applyEvent, stepEvent] at hq
    cases hfp : findPitch db pid with
    | none =>
      simp only [hfp] at hq
      rw [row_eq_of_nodup hI.pitchNodup hp hq hqid]
      exact hc
    | some p0 =>
      simp only [hfp] at hq
      by_cases hg : p0.status = .draft
      · rw [if_pos hg] at hq
        obtain ⟨r, hr, hqe⟩ := mem_updatePitch.mp hq
        by_cases h : r.id = pid
        · exfalso
          have hr0 : r = p0 := findPitch_unique hI.pitchNodup hfp hr h
          have hrp : r = p := by
            refine row_eq_of_nodup hI.pitchNodup hp hr ?_
            rw [← hqid]
            rw [if_pos (by simpa using h)] at hqe
            rw [hqe]
          have : p.ai_processing_status = .pending := by
            rw [← hrp]
            exact hI.draftPending r hr (by rw [hr0]; exact hg)
          rw [hc] at this
          cases this
        · rw [if_neg (by simpa using h)] at hqe
          subst hqe
          rw [row_eq_of_nodup hI.pitchNodup hp hr hqid]
          exact hc
      · rw [if_neg hg] at hq
        rw [row_eq_of_nodup hI.pitchNodup hp hq hqid]
        exact hc
  | publishDraft pid env now =>
    simp only [applyEvent, stepEvent] at hq
    cases hfp : findPitch db pid with
    | none =>
      simp only [hfp] at hq
      rw [row_eq_of_nodup hI.pitchNodup hp hq hqid]
      exact hc
    | some p0 =>
      simp only [hfp] at hq
      by_cases hg : p0.status = .draft
      · rw [if_pos hg] at hq
        by_cases h : p.id = pid
        · exfalso
          have hpp0 : p = p0 := findPitch_unique hI.pitchNodup hfp hp h
          have : p.ai_processing_status = .pending :=
            hI.draftPending p hp (by rw [hpp0]; exact hg)
          rw [hc] at this
          cases this
        · have hN1 := (inv_setPublished hI pid).pitchNodup
          have hp1 : p ∈ (updatePitch db pid fun r =>
              { r with status := PitchStatus.published }).pitches :=
            mem_updatePitch_of_ne hp h
          rw [generate_nontarget_row hN1 hp1 hq hqid h]
          exact hc
      · rw [if_neg hg] at hq
        rw [row_eq_of_nodup hI.pitchNodup hp hq hqid]
        exact hc
  | publishNew pid uid fd env now =>
    simp only [applyEvent, stepEvent] at hq
    by_cases h : pitchIdExists db pid
    · rw [if_pos h] at hq
      rw [row_eq_of_nodup hI.pitchNodup hp hq hqid]
      exact hc
    · rw [if_neg h] at hq
      have hne : p.id ≠ pid := ne_of_fresh (by simpa using h) hp
      have hI1 := inv_appendPitch hI uid fd .published now (by simpa using h)
      have hp1 : p ∈ ({ db with pitches :=
          db.pitches ++ [newPitchRow pid uid fd .published now] } : DB).pitches :=
        List.mem_append_left _ hp
      rw [generate_nontarget_row hI1.pitchNodup hp1 hq hqid hne]
      exact hc
  | dashboardRetry pid env now =>
    simp only [applyEvent, stepEvent] at hq
    cases hfp : findPitch db pid with
    | none =>
      simp only [hfp] at hq
      rw [row_eq_of_nodup hI.pitchNodup hp hq hqid]
      exact hc
    | some p0 =>
      simp only [hfp] at hq
      by_cases hg : p0.status = .published ∧ p0.ai_processing_status = .failed
      · rw [if_pos hg] at hq
        by_cases h : p.id = pid
        · exfalso
          have hpp0 : p = p0 := findPitch_unique hI.pitchNodup hfp hp h
          rw [hpp0, hg.2] at hc
          cases hc
        · rw [generate_nontarget_row hI.pitchNodup hp hq hqid h]
          exact hc
      · rw [if_neg hg] at hq
        rw [row_eq_of_nodup hI.pitchNodup hp hq hqid]
        exact hc
  | detailRetry pid env now =>
    simp only [applyEvent, stepEvent] at hq
    cases hfp : findPitch db pid with
    | none =>
      simp only [hfp] at hq
      rw [row_eq_of_nodup hI.pitchNodup hp hq hqid]
      exact hc
    | some p0 =>
      simp only [hfp] at hq
      by_cases hg : p0.status = .published ∧ hasFeedback db pid = false
      · rw [if_pos hg] at hq
        by_cases h : p.id = pid
        · exfalso
          have : hasFeedback db p.id = true := hI.completedFb p hp hc
          rw [h, hg.2] at this
          cases this
        · rw [generate_nontarget_row hI.pitchNodup hp hq hqid h]
          exact hc
      · rw [if_neg hg] at hq
        rw [row_eq_of_nodup hI.pitchNodup hp hq hqid]
        exact hc
  | deletePitch pid uid =>
    simp only [applyEvent, stepEvent] at hq
    cases hfp : findPitch db pid with
    | none =>
      simp only [hfp] at hq
      rw [row_eq_of_nodup hI.pitchNodup hp hq hqid]
      exact hc
    | some p0 =>
      simp only [hfp] at hq
      by_cases hg : p0.user_id = uid
      · rw [if_pos hg] at hq
        rw [row_eq_of_nodup hI.pitchNodup hp (List.mem_filter.mp hq).1 hqid]
        exact hc
      · rw [if_neg hg] at hq
        rw [row_eq_of_nodup hI.pitchNodup hp hq hqid]
        exact hc
  | discoverVote pid uid vt =>
    simp only [applyEvent, stepEvent] at hq
    rw [discover_handleVote_pitches] at hq
    rw [row_eq_of_nodup hI.pitchNodup hp hq hqid]
    exact hc
  | detailVote pid uid vt =>
    simp only [applyEvent, stepEvent] at hq
    rw [detail_handleVote_pitches] at hq
    rw [row_eq_of_nodup hI.pitchNodup hp hq hqid]
    exact hc
  | deleteVote pid uid =>
    simp only [applyEvent, stepEvent] at hq
    rw [row_eq_of_nodup hI.pitchNodup hp hq hqid]
    exact hc

/-- The sequence of AI-processing statuses an event writes to any pitch
row, appended to the row's current status, is a path of the state machine
(up to rewrites of an unchanged value). -/
theorem chain_writes_event {db : DB} (hI : Inv db) (e : Event) :
    ∀ p ∈ db.pitches,
      List.Chain' aiStep (p.ai_processing_status :: eventWrites db e p.id) := by
  intro p hp
  cases e with
  | saveDraftNew pid uid fd t =>
    simp only [eventWrites, stepEvent]
    split_ifs <;> simp
  | saveDraftUpdate pid fd =>
    simp only [eventWrites, stepEvent]
    cases hfp : findPitch db pid with
    | none => simp
    | some p0 =>
      simp only [hfp]
      split_ifs <;> simp
  | publishDraft pid env now =>
    simp only [eventWrites, stepEvent]
    cases hfp : findPitch db pid with
    | none => simp
    | some p0 =>
      simp only [hfp]
      by_cases hg : p0.status = .draft
      · rw [if_pos hg]
        simp only []
        rw [writesFor_map]
        by_cases hpp : pid = p.id
        · rw [if_pos hpp]
          have hs : p.ai_processing_status ≠ .completed := by
            have hpp0 : p = p0 := findPitch_unique hI.pitchNodup hfp hp hpp.symm
            rw [hpp0, hI.draftPending p0 (findPitch_mem hfp) hg]
            intro h
            cases h
          rcases generate_cases (updatePitch db pid fun r =>
              { r with status := PitchStatus.published }) pid env now with
            ⟨h0, heq⟩ | ⟨msg, heq⟩ | ⟨fb, hnofb, heq⟩ <;> rw [heq]
          · exact List.chain'_singleton _
          · exact chain_aiStep_run hs (Or.inr rfl)
          · exact chain_aiStep_run hs (Or.inl rfl)
        · rw [if_neg hpp]
          exact List.chain'_singleton _
      · rw [if_neg hg]
        simp
  | publishNew pid uid fd env now =>
    simp only [eventWrites, stepEvent]
    by_cases h : pitchIdExists db pid
    · rw [if_pos h]
      simp
    · rw [if_neg h]
      simp only []
      rw [writesFor_map]
      rw [if_neg fun hpp => ne_of_fresh (by simpa using h) hp hpp.symm]
      exact List.chain'_singleton _
  | dashboardRetry pid env now =>
    simp only [eventWrites, stepEvent]
    cases hfp : findPitch db pid with
    | none => simp
    | some p0 =>
      simp only [hfp]
      by_cases hg : p0.status = .published ∧ p0.ai_processing_status = .failed
      · rw [if_pos hg]
        simp only []
        rw [writesFor_map]
        by_cases hpp : pid = p.id
        · rw [if_pos hpp]
          have hs : p.ai_processing_status ≠ .completed := by
            have hpp0 : p = p0 := findPitch_unique hI.pitchNodup hfp hp hpp.symm
            rw [hpp0, hg.2]
            intro h
            cases h
          rcases generate_cases db pid env now with
            ⟨h0, heq⟩ | ⟨msg, heq⟩ | ⟨fb, hnofb, heq⟩ <;> rw [heq]
          · exact List.chain'_singleton _
          · exact chain_aiStep_run hs (Or.inr rfl)
          · exact chain_aiStep_run hs (Or.inl rfl)
        · rw [if_neg hpp]
          exact List.chain'_singleton _
      · rw [if_neg hg]
        simp
  | detailRetry pid env now =>
    simp only [eventWrites, stepEvent]
    cases hfp : findPitch db pid with
    | none => simp
    | some p0 =>
      simp only [hfp]
      by_cases hg : p0.status = .published ∧ hasFeedback db pid = false
      · rw [if_pos hg]
        simp only []
        rw [writesFor_map]
        by_cases hpp : pid = p.id
        · rw [if_pos hpp]
          have hs : p.ai_processing_status ≠ .completed := by
            intro hc
            have : hasFeedback db p.id = true := hI.completedFb p hp hc
            rw [← hpp, hg.2] at this
            cases this
          rcases generate_cases db pid env now with
            ⟨h0, heq⟩ | ⟨msg, heq⟩ | ⟨fb, hnofb, heq⟩ <;> rw [heq]
          · exact List.chain'_singleton _
          · exact chain_aiStep_run hs (Or.inr rfl)
          · exact chain_aiStep_run hs (Or.inl rfl)
        · rw [if_neg hpp]
          exact List.chain'_singleton _
      · rw [if_neg hg]
        simp
  | deletePitch pid uid =>
    simp only [eventWrites, stepEvent]
    cases hfp : findPitch db pid with
    | none => simp
    | some p0 =>
      simp only [hfp]
      split_ifs <;> simp
  | discoverVote pid uid vt =>
    simp only [eventWrites, stepEvent]
    simp
  | detailVote pid uid vt =>
    simp only [eventWrites, stepEvent]
    simp
  | deleteVote pid uid =>
    simp only [eventWrites, stepEvent]
    simp

/-! ## Exact run computations for the endpoint -/

theorem findPitch_target {db : DB} {pid : Nat} {p : PitchRow}
    (g : PitchRow → PitchRow) (hg : ∀ r, (g r).id = r.id)
    (hfp : findPitch db pid = some p) :
    findPitch (updatePitch db pid g) pid = some (g p) := by
  rw [findPitch_updatePitch db pid pid g hg, hfp]
  simp [findPitch_id hfp]

/-- The run of the handler on an existing pitch with no AI credential and
no prior feedback row: the mock insert succeeds and the pitch completes. -/
theorem generate_mock_run {db : DB} {pid : Nat} {env : GenEnv} (now : Nat)
    {p : PitchRow} (hfp : findPitch db pid = some p)
    (hkey : env.openaiApiKey = none) (hnofb : hasFeedback db pid = false) :
    generatePitchFeedback db (some pid) env now =
      { response := .ok mockFeedback
        db := setCompleted (insertFeedback (setProcessing db pid now)
          ⟨pid, mockFeedback⟩) pid now
        writes := [.processing, .completed] } := by
  have hfp1 : findPitch (setProcessing db pid now) pid =
      some { p with ai_processing_status := .processing
                    ai_processing_started_at := some now } := by
    unfold setProcessing
    exact findPitch_target _ (fun _ => rfl) hfp
  have hhf : hasFeedback (setProcessing db pid now) pid = false := hnofb
  simp only [generatePitchFeedback, hfp1, hkey, genInsertAndComplete, hhf,
    Bool.false_eq_true, if_false]

/-- The run of the handler when the AI call fails or the feedback insert
violates UNIQUE(pitch_id): the catch block fires. -/
theorem generate_fail_run {db : DB} {pid : Nat} {env : GenEnv} (now : Nat)
    {p : PitchRow} (hfp : findPitch db pid = some p)
    (hfail :
      (∃ key st body, env.openaiApiKey = some key ∧
        env.aiOutcome = .httpError st body) ∨
      (∃ key m, env.openaiApiKey = some key ∧ env.aiOutcome = .malformedJson m) ∨
      (hasFeedback db pid = true ∧ (env.openaiApiKey = none ∨
        ∃ fb, env.aiOutcome = .parsed fb))) :
    ∃ raw, generatePitchFeedback db (some pid) env now =
      genFail (setProcessing db pid now) pid raw now [.processing] := by
  have hfp1 : findPitch (setProcessing db pid now) pid =
      some { p with ai_processing_status := .processing
                    ai_processing_started_at := some now } := by
    unfold setProcessing
    exact findPitch_target _ (fun _ => rfl) hfp
  rcases hfail with ⟨key, st, body, hk, hai⟩ | ⟨key, m, hk, hai⟩ | ⟨hfb, hrest⟩
  · exact ⟨"OpenAI API error: " ++ toString st ++ " - " ++ body,
      by simp only [generatePitchFeedback, hfp1, hk, hai]⟩
  · exact ⟨m, by simp only [generatePitchFeedback, hfp1, hk, hai]⟩
  · have hhf : hasFeedback (setProcessing db pid now) pid = true := hfb
    rcases hrest with hk | ⟨fb, hai⟩
    · exact ⟨uniqueViolationMsg, by
        simp only [generatePitchFeedback, hfp1, hk, genInsertAndComplete, hhf, if_true]⟩
    · refine ⟨uniqueViolationMsg, ?_⟩
      cases hk : env.openaiApiKey with
      | none =>
        simp only [generatePitchFeedback, hfp1, hk, genInsertAndComplete, hhf, if_true]
      | some key =>
        simp only [generatePitchFeedback, hfp1, hk, hai, genInsertAndComplete,
          hhf, if_true]

/-- The pitch row after the catch block: status 'failed', the error
message recorded, the completion timestamp set. -/
theorem genFail_row {db : DB} {pid : Nat} {p : PitchRow} (raw : String)
    (now : Nat) (hfp : findPitch db pid = some p) :
    findPitch (genFail (setProcessing db pid now) pid raw now
        [.processing]).db pid =
      some { p with ai_processing_status := .failed
                    ai_processing_error := some (errMessage raw)
                    ai_processing_started_at := some now
                    ai_processing_completed_at := some now } := by
  show findPitch (setFailed (setProcessing db pid now) pid (errMessage raw) now) pid = _
  have h1 : findPitch (setProcessing db pid now) pid =
      some { p with ai_processing_status := .processing
                    ai_processing_started_at := some now } := by
    unfold setProcessing
    exact findPitch_target _ (fun _ => rfl) hfp
  unfold setFailed
  exact findPitch_target
    (fun r => { r with ai_processing_status := .failed
                       ai_processing_error := some (errMessage raw)
                       ai_processing_completed_at := some now })
    (fun _ => rfl) h1

theorem countVotePair_filter_le_one (l : List VoteRow) (pid uid : Nat)
    (h : (l.map fun v => (v.pitch_id, v.user_id)).Nodup) :
    (l.filter (pairMatches pid uid)).length ≤ 1 := by
  induction l with
  | nil => simp
  | cons v vs ih =>
    simp only [List.map_cons, List.nodup_cons] at h
    by_cases hv : pairMatches pid uid v
    · have hpair : (v.pitch_id, v.user_id) = (pid, uid) := by
        have := hv
        simp only [pairMatches, Bool.and_eq_true, beq_iff_eq] at this
        simp [this.1, this.2]
      have hnil : vs.filter (pairMatches pid uid) = [] := by
        rw [List.filter_eq_nil_iff]
        intro w hw hwp
        have hwpair : (w.pitch_id, w.user_id) = (pid, uid) := by
          simp only [pairMatches, Bool.and_eq_true, beq_iff_eq] at hwp
          simp [hwp.1, hwp.2]
        exact h.1 (by
          rw [← hpair] at hwpair
          exact hwpair ▸ List.mem_map_of_mem _ hw)
      simp [hv, hnil]
    · simp only [List.filter_cons_of_neg (by simpa using hv)]
      exact ih h.2

theorem countVotePair_le_one_of_nodup {db : DB}
    (h : (db.votes.map fun v => (v.pitch_id, v.user_id)).Nodup)
    (pid uid : Nat) : countVotePair db pid uid ≤ 1 :=
  countVotePair_filter_le_one db.votes pid uid h

/-! ## Claim theorems -/

/-- C1: in every store reachable through the client flows, at most one
`ai_feedback` row exists per pitch id (UNIQUE(pitch_id)), and a pitch
whose AI-processing status is 'completed' has exactly one feedback row
(the endpoint only sets 'completed' after a successful insert). -/
theorem feedback_unique_and_completed_exactly_one (db : DB)
    (h : Reachable db) (pid : Nat) (p : PitchRow) (hp : p ∈ db.pitches) :
    fbCount db pid ≤ 1 ∧
    (p.ai_processing_status = .completed → fbCount db p.id = 1) := by
  have hI := inv_reachable h
  refine ⟨fbCount_le_one_of_nodup hI.fbNodup pid, fun hc => ?_⟩
  exact le_antisymm (fbCount_le_one_of_nodup hI.fbNodup p.id)
    (fbCount_pos_of_hasFeedback (hI.completedFb p hp hc))

theorem feedback_unique_and_completed_exactly_one_witness :
    fbCount dbCompleted 1 ≤ 1 ∧
    (samplePitchCompleted.ai_processing_status = .completed →
      fbCount dbCompleted samplePitchCompleted.id = 1) :=
  feedback_unique_and_completed_exactly_one dbCompleted
    (.step (.publishNew 1 10 sampleForm ⟨none, .parsed mockFeedback⟩ 0) .init)
    1 samplePitchCompleted (by decide)

/-- C2 counterexample: the pitch of `dbCompleted` is in status
'completed', yet one invocation of the generation endpoint with its id
(an operation reachable over plain HTTP) rewrites the status to
'processing' and then 'failed', so 'completed' is not terminal for
arbitrary operations as the claim states. -/
theorem completed_not_terminal :
    (findPitch dbCompleted 1).map PitchRow.ai_processing_status =
      some .completed ∧
    (generatePitchFeedback dbCompleted (some 1)
      ⟨none, .parsed mockFeedback⟩ 5).writes = [.processing, .failed] ∧
    (findPitch (generatePitchFeedback dbCompleted (some 1)
        ⟨none, .parsed mockFeedback⟩ 5).db 1).map PitchRow.ai_processing_status
      = some .failed :=
  ⟨rfl, rfl, rfl⟩

/-- C2 (amended): along the guarded client flows, every status write
sequence follows the machine pending → processing → {completed | failed}
with failed → processing the only re-entry (unchanged rewrites aside),
and no client-flow event moves a pitch out of 'completed'; a direct
endpoint invocation on a completed pitch is excluded from this system
and does leave 'completed' (see the counterexample). -/
theorem ai_status_machine_client_flows (db : DB) (h : Reachable db)
    (e : Event) (p q : PitchRow) (hp : p ∈ db.pitches)
    (hq : q ∈ (applyEvent db e).pitches) (hqid : q.id = p.id) :
    List.Chain' aiStep (p.ai_processing_status :: eventWrites db e p.id) ∧
    (p.ai_processing_status = .completed →
      q.ai_processing_status = .completed) := by
  have hI := inv_reachable h
  exact ⟨chain_writes_event hI e p hp,
    fun hc => completed_stable_event hI e p hp hc q hq hqid⟩

theorem ai_status_machine_client_flows_witness :
    List.Chain' aiStep
      ((newPitchRow 1 10 sampleForm .draft 0).ai_processing_status ::
        eventWrites dbDraft (.publishDraft 1 ⟨none, .parsed mockFeedback⟩ 0)
          (newPitchRow 1 10 sampleForm .draft 0).id) ∧
    ((newPitchRow 1 10 sampleForm .draft 0).ai_processing_status = .completed →
      samplePitchCompleted.ai_processing_status = .completed) :=
  ai_status_machine_client_flows dbDraft
    (.step (.saveDraftNew 1 10 sampleForm 0) .init)
    (.publishDraft 1 ⟨none, .parsed mockFeedback⟩ 0)
    (newPitchRow 1 10 sampleForm .draft 0) samplePitchCompleted
    (by decide) (by decide) (by decide)

/-- C3 counterexample: the endpoint invoked for an existing pitch with no
AI credential does not store the mock feedback when a feedback row
already exists: the insert hits UNIQUE(pitch_id), the pitch is marked
'failed' and the caller receives 500 instead of a success response. -/
theorem mock_branch_counterexample :
    (findPitch dbPriorFeedback 2).isSome = true ∧
    (generatePitchFeedback dbPriorFeedback (some 2)
      ⟨none, .parsed mockFeedback⟩ 3).response.httpStatus = 500 ∧
    (generatePitchFeedback dbPriorFeedback (some 2)
      ⟨none, .parsed mockFeedback⟩ 3).response ≠ .ok mockFeedback ∧
    (findPitch (generatePitchFeedback dbPriorFeedback (some 2)
        ⟨none, .parsed mockFeedback⟩ 3).db 2).map PitchRow.ai_processing_status
      = some .failed := by
  refine ⟨rfl, rfl, ?_, rfl⟩
  decide

/-- C3 (amended): invoked for an existing pitch with no `OPENAI_API_KEY`
and no feedback row for it yet, the endpoint stores the fixed mock
feedback (3 strengths, 3 weaknesses, 3 recommendations, overall_score 7),
marks the pitch 'completed' with a completion timestamp and a cleared
error, and answers success carrying that feedback. -/
theorem mock_feedback_on_missing_key (db : DB) (pid now : Nat)
    (env : GenEnv) (p : PitchRow) (hfp : findPitch db pid = some p)
    (hkey : env.openaiApiKey = none) (hnofb : hasFeedback db pid = false) :
    (generatePitchFeedback db (some pid) env now).response = .ok mockFeedback ∧
    mockFeedback.strengths.length = 3 ∧
    mockFeedback.weaknesses.length = 3 ∧
    mockFeedback.recommendations.length = 3 ∧
    mockFeedback.overall_score = 7 ∧
    (generatePitchFeedback db (some pid) env now).db.feedback =
      db.feedback ++ [⟨pid, mockFeedback⟩] ∧
    (findPitch (generatePitchFeedback db (some pid) env now).db pid).map
      PitchRow.ai_processing_status = some .completed ∧
    (findPitch (generatePitchFeedback db (some pid) env now).db pid).map
      PitchRow.ai_processing_completed_at = some (some now) ∧
    (findPitch (generatePitchFeedback db (some pid) env now).db pid).map
      PitchRow.ai_processing_error = some none := by
  have hrun := generate_mock_run now hfp hkey hnofb
  have hresp : (generatePitchFeedback db (some pid) env now).response =
      .ok mockFeedback := by rw [hrun]
  have hdb : (generatePitchFeedback db (some pid) env now).db =
      setCompleted (insertFeedback (setProcessing db pid now)
        ⟨pid, mockFeedback⟩) pid now := by rw [hrun]
  have h1 : findPitch (insertFeedback (setProcessing db pid now)
      ⟨pid, mockFeedback⟩) pid =
      some { p with ai_processing_status := .processing
                    ai_processing_started_at := some now } := by
    show findPitch (setProcessing db pid now) pid = _
    unfold setProcessing
    exact findPitch_target _ (fun _ => rfl) hfp
  have hrow : findPitch (setCompleted (insertFeedback (setProcessing db pid now)
      ⟨pid, mockFeedback⟩) pid now) pid =
      some { p with ai_processing_status := .completed
                    ai_processing_started_at := some now
                    ai_processing_completed_at := some now
                    ai_processing_error := none } := by
    unfold setCompleted
    exact findPitch_target
      (fun r => { r with ai_processing_status := .completed
                         ai_processing_completed_at := some now
                         ai_processing_error := none })
      (fun _ => rfl) h1
  refine ⟨hresp, rfl, rfl, rfl, rfl, ?_, ?_, ?_, ?_⟩
  · rw [hdb]
    rfl
  · rw [hdb, hrow]
    rfl
  · rw [hdb, hrow]
    rfl
  · rw [hdb, hrow]
    rfl

theorem mock_feedback_on_missing_key_witness :
    (generatePitchFeedback dbPendingPitch (some 3)
      ⟨none, .parsed mockFeedback⟩ 7).response = .ok mockFeedback ∧
    mockFeedback.strengths.length = 3 ∧
    mockFeedback.weaknesses.length = 3 ∧
    mockFeedback.recommendations.length = 3 ∧
    mockFeedback.overall_score = 7 ∧
    (generatePitchFeedback dbPendingPitch (some 3)
      ⟨none, .parsed mockFeedback⟩ 7).db.feedback =
      dbPendingPitch.feedback ++ [⟨3, mockFeedback⟩] ∧
    (findPitch (generatePitchFeedback dbPendingPitch (some 3)
        ⟨none, .parsed mockFeedback⟩ 7).db 3).map PitchRow.ai_processing_status
      = some .completed ∧
    (findPitch (generatePitchFeedback dbPendingPitch (some 3)
        ⟨none, .parsed mockFeedback⟩ 7).db 3).map
      PitchRow.ai_processing_completed_at = some (some 7) ∧
    (findPitch (generatePitchFeedback dbPendingPitch (some 3)
        ⟨none, .parsed mockFeedback⟩ 7).db 3).map PitchRow.ai_processing_error
      = some none :=
  mock_feedback_on_missing_key dbPendingPitch 3 7 ⟨none, .parsed mockFeedback⟩
    (newPitchRow 3 12 sampleForm .published 0) rfl rfl rfl

/-- C4: whenever the endpoint fails after the pitch was found (AI call
non-2xx, malformed JSON in the AI response, or a feedback-insert error),
it sets the pitch's status to 'failed', records the error message in
`ai_processing_error`, and answers 500 with an error body. -/
theorem failure_after_found_sets_failed_500 (db : DB) (pid now : Nat)
    (env : GenEnv) (p : PitchRow) (hfp : findPitch db pid = some p)
    (hfail :
      (∃ key st body, env.openaiApiKey = some key ∧
        env.aiOutcome = .httpError st body) ∨
      (∃ key m, env.openaiApiKey = some key ∧
        env.aiOutcome = .malformedJson m) ∨
      (hasFeedback db pid = true ∧ (env.openaiApiKey = none ∨
        ∃ fb, env.aiOutcome = .parsed fb))) :
    ∃ msg : String,
      (generatePitchFeedback db (some pid) env now).response =
        .serverError msg ∧
      (generatePitchFeedback db (some pid) env now).response.httpStatus = 500 ∧
      (findPitch (generatePitchFeedback db (some pid) env now).db pid).map
        PitchRow.ai_processing_status = some .failed ∧
      (findPitch (generatePitchFeedback db (some pid) env now).db pid).map
        PitchRow.ai_processing_error = some (some msg) := by
  obtain ⟨raw, hrun⟩ := generate_fail_run now hfp hfail
  refine ⟨errMessage raw, ?_, ?_, ?_, ?_⟩ <;> rw [hrun]
  · rfl
  · rfl
  · rw [genFail_row raw now hfp]
    rfl
  · rw [genFail_row raw now hfp]
    rfl

theorem failure_after_found_sets_failed_500_witness :
    ∃ msg : String,
      (generatePitchFeedback dbPriorFeedback (some 2)
        ⟨some "sk-test", .httpError 500 "overloaded"⟩ 9).response =
        .serverError msg ∧
      (generatePitchFeedback dbPriorFeedback (some 2)
        ⟨some "sk-test", .httpError 500 "overloaded"⟩ 9).response.httpStatus
        = 500 ∧
      (findPitch (generatePitchFeedback dbPriorFeedback (some 2)
          ⟨some "sk-test", .httpError 500 "overloaded"⟩ 9).db 2).map
        PitchRow.ai_processing_status = some .failed ∧
      (findPitch (generatePitchFeedback dbPriorFeedback (some 2)
          ⟨some "sk-test", .httpError 500 "overloaded"⟩ 9).db 2).map
        PitchRow.ai_processing_error = some (some msg) :=
  failure_after_found_sets_failed_500 dbPriorFeedback 2 9
    ⟨some "sk-test", .httpError 500 "overloaded"⟩ samplePitchFailed rfl
    (Or.inl ⟨"sk-test", 500, "overloaded", rfl, rfl⟩)

/-- C7: in every reachable store, at most one vote row exists per
(pitch, voter) pair, and no accepted vote is by the pitch's owner. -/
theorem votes_unique_and_never_self (db : DB) (h : Reachable db)
    (pid uid : Nat) (v : VoteRow) (hv : v ∈ db.votes) (p : PitchRow)
    (hp : p ∈ db.pitches) :
    countVotePair db pid uid ≤ 1 ∧
    (v.pitch_id = p.id → v.user_id ≠ p.user_id) := by
  have hI := inv_reachable h
  exact ⟨countVotePair_le_one_of_nodup hI.voteNodup pid uid,
    fun hvp => hI.noSelfVote v hv p hp hvp⟩

theorem votes_unique_and_never_self_witness :
    countVotePair dbVoted 1 20 ≤ 1 ∧
    ((⟨1, 20, .interesting⟩ : VoteRow).pitch_id = samplePitchCompleted.id →
      (⟨1, 20, .interesting⟩ : VoteRow).user_id ≠ samplePitchCompleted.user_id) :=
  votes_unique_and_never_self dbVoted
    (.step (.discoverVote 1 20 .interesting)
      (.step (.publishNew 1 10 sampleForm ⟨none, .parsed mockFeedback⟩ 0) .init))
    1 20 ⟨1, 20, .interesting⟩ (by decide) samplePitchCompleted (by decide)

/-- C9: a request without a `pitch_id` gets a 400 validation response,
and a request whose `pitch_id` matches no pitch gets a 404 NotFound
response; in both cases the store is unchanged. -/
theorem missing_pitch_id_400_unknown_pitch_404 (db : DB) (env : GenEnv)
    (now pid : Nat) :
    ((generatePitchFeedback db none env now).response =
        .badRequest "pitch_id is required" ∧
      (generatePitchFeedback db none env now).response.httpStatus = 400 ∧
      (generatePitchFeedback db none env now).db = db) ∧
    (findPitch db pid = none →
      (generatePitchFeedback db (some pid) env now).response =
        .notFound "Pitch not found" ∧
      (generatePitchFeedback db (some pid) env now).response.httpStatus = 404 ∧
      (generatePitchFeedback db (some pid) env now).db = db) := by
  refine ⟨⟨rfl, rfl, rfl⟩, fun h0 => ?_⟩
  have hset : setProcessing db pid now = db := by
    unfold setProcessing
    exact updatePitch_of_not_found _ h0
  have hfp1 : findPitch (setProcessing db pid now) pid = none := by
    rw [hset]
    exact h0
  refine ⟨?_, ?_, ?_⟩
  · simp only [generatePitchFeedback, hfp1]
  · simp only [generatePitchFeedback, hfp1]
    rfl
  · simp only [generatePitchFeedback, hfp1]
    exact hset

theorem missing_pitch_id_400_unknown_pitch_404_witness :
    ((generatePitchFeedback dbPendingPitch none
        ⟨none, .parsed mockFeedback⟩ 0).response =
        .badRequest "pitch_id is required" ∧
      (generatePitchFeedback dbPendingPitch none
        ⟨none, .parsed mockFeedback⟩ 0).response.httpStatus = 400 ∧
      (generatePitchFeedback dbPendingPitch none
        ⟨none, .parsed mockFeedback⟩ 0).db = dbPendingPitch) ∧
    ((generatePitchFeedback dbPendingPitch (some 99)
        ⟨none, .parsed mockFeedback⟩ 0).response =
        .notFound "Pitch not found" ∧
      (generatePitchFeedback dbPendingPitch (some 99)
        ⟨none, .parsed mockFeedback⟩ 0).response.httpStatus = 404 ∧
      (generatePitchFeedback dbPendingPitch (some 99)
        ⟨none, .parsed mockFeedback⟩ 0).db = dbPendingPitch) :=
  ⟨(missing_pitch_id_400_unknown_pitch_404 dbPendingPitch
      ⟨none, .parsed mockFeedback⟩ 0 99).1,
   (missing_pitch_id_400_unknown_pitch_404 dbPendingPitch
      ⟨none, .parsed mockFeedback⟩ 0 99).2 rfl⟩

/-! ## Leaderboard lemmas (C5) -/

namespace Leaderboard

theorem mem_assignRanksFrom : ∀ {l : List LBEntry} {r : Nat} {e' : LBEntry},
    e' ∈ assignRanksFrom r l → ∃ e ∈ l, ∃ s, e' = { e with rank := s }
  | [], _, _, h => absurd h (List.not_mem_nil _)
  | e :: es, r, e', h => by
    rcases List.mem_cons.mp h with h | h
    · exact ⟨e, List.mem_cons_self e es, r, h⟩
    · obtain ⟨e0, he0, s, hs⟩ := mem_assignRanksFrom h
      exact ⟨e0, List.mem_cons_of_mem e he0, s, hs⟩

theorem assignRanksFrom_length : ∀ (l : List LBEntry) (r : Nat),
    (assignRanksFrom r l).length = l.length
  | [], _ => rfl
  | _ :: es, r => by
    simp only [assignRanksFrom, List.length_cons, assignRanksFrom_length es]

theorem pairwise_interesting_assignRanksFrom :
    ∀ {l : List LBEntry} (r : Nat),
    l.Pairwise (fun a b => b.interesting ≤ a.interesting) →
    (assignRanksFrom r l).Pairwise (fun a b => b.interesting ≤ a.interesting)
  | [], _, _ => List.Pairwise.nil
  | e :: es, r, h => by
    rw [List.pairwise_cons] at h
    refine List.pairwise_cons.mpr ⟨?_, pairwise_interesting_assignRanksFrom (r + 1) h.2⟩
    intro b hb
    obtain ⟨e0, he0, s, rfl⟩ := mem_assignRanksFrom hb
    exact h.1 e0 he0

theorem assignRanksFrom_take_map_rank :
    ∀ (l : List LBEntry) (r k : Nat),
    ((assignRanksFrom r l).take k).map LBEntry.rank =
      List.range' r (min k l.length)
  | [], r, k => by simp [assignRanksFrom]
  | e :: es, r, 0 => by simp
  | e :: es, r, k + 1 => by
    simp only [assignRanksFrom, List.take_succ_cons, List.map_cons,
      List.length_cons, Nat.succ_min_succ]
    rw [assignRanksFrom_take_map_rank es (r + 1) k]
    rfl

theorem mem_assignRanksFrom_of_mem :
    ∀ {l : List LBEntry} (r : Nat) {e : LBEntry}, e ∈ l →
      ∃ s, { e with rank := s } ∈ assignRanksFrom r l
  | e' :: es, r, e, h => by
    rcases List.mem_cons.mp h with rfl | h
    · exact ⟨r, List.mem_cons_self _ _⟩
    · obtain ⟨s, hs⟩ := mem_assignRanksFrom_of_mem (r + 1) h
      exact ⟨s, List.mem_cons_of_mem _ hs⟩

theorem sorted_mergeSort_moreInteresting (l : List LBEntry) :
    (l.mergeSort moreInteresting).Pairwise
      (fun a b => b.interesting ≤ a.interesting) := by
  have h := @List.sorted_mergeSort LBEntry moreInteresting
    (fun a b c hab hbc => by
      simp only [moreInteresting, decide_eq_true_eq] at *
      omega)
    (fun a b => by
      simp only [moreInteresting, Bool.or_eq_true, decide_eq_true_eq]
      omega)
    l
  exact h.imp fun hab => by simpa [moreInteresting] using hab

end Leaderboard

/-- C5: the leaderboard consists of published pitches passing the recency
filter, with vote counts derived from the vote rows, listed in
non-increasing order of 'interesting' votes, ranked 1, 2, 3, ... in list
order, and truncated to at most 20 entries; when at most 20 pitches pass
the filter, every one of them appears. -/
theorem loadLeaderboard_spec (db : DB) (f : Leaderboard.LBFilter)
    (tS wS : Nat) :
    (∀ e ∈ Leaderboard.loadLeaderboard db f tS wS, ∃ p ∈ db.pitches,
      p.status = .published ∧ Leaderboard.passesFilter f tS wS p = true ∧
      e.id = p.id ∧
      e.interesting = Leaderboard.countVotes db.votes p.id .interesting ∧
      e.needs_work = Leaderboard.countVotes db.votes p.id .needs_work) ∧
    (Leaderboard.loadLeaderboard db f tS wS).Pairwise
      (fun a b => b.interesting ≤ a.interesting) ∧
    (Leaderboard.loadLeaderboard db f tS wS).map Leaderboard.LBEntry.rank =
      List.range' 1 (Leaderboard.loadLeaderboard db f tS wS).length ∧
    (Leaderboard.loadLeaderboard db f tS wS).length ≤ 20 ∧
    ((db.pitches.filter fun p => p.status == PitchStatus.published &&
        Leaderboard.passesFilter f tS wS p).length ≤ 20 →
      ∀ p ∈ db.pitches, p.status = .published →
        Leaderboard.passesFilter f tS wS p = true →
        ∃ e ∈ Leaderboard.loadLeaderboard db f tS wS, e.id = p.id) := by
  refine ⟨?_, ?_, ?_, ?_, ?_⟩
  · intro e he
    simp only [Leaderboard.loadLeaderboard] at he
    obtain ⟨e0, he0, s, rfl⟩ :=
      Leaderboard.mem_assignRanksFrom (List.mem_of_mem_take he)
    obtain ⟨p, hpmem, rfl⟩ := List.mem_map.mp (List.mem_mergeSort.mp he0)
    obtain ⟨hp, hcond⟩ := List.mem_filter.mp hpmem
    simp only [Bool.and_eq_true, beq_iff_eq] at hcond
    exact ⟨p, hp, hcond.1, hcond.2, rfl, rfl, rfl⟩
  · simp only [Leaderboard.loadLeaderboard]
    refine List.Pairwise.sublist (List.take_sublist _ _) ?_
    exact Leaderboard.pairwise_interesting_assignRanksFrom 1
      (Leaderboard.sorted_mergeSort_moreInteresting _)
  · simp only [Leaderboard.loadLeaderboard]
    rw [Leaderboard.assignRanksFrom_take_map_rank, List.length_take,
      Leaderboard.assignRanksFrom_length]
  · simp only [Leaderboard.loadLeaderboard]
    rw [List.length_take]
    exact Nat.min_le_left _ _
  · intro hlen p hp hpub hpass
    have hpf : p ∈ db.pitches.filter fun q =>
        q.status == PitchStatus.published &&
          Leaderboard.passesFilter f tS wS q :=
      List.mem_filter.mpr ⟨hp, by simp [hpub, hpass]⟩
    have hsort : Leaderboard.lbEntry db.votes db.feedback p ∈
        ((db.pitches.filter fun q => q.status == PitchStatus.published &&
          Leaderboard.passesFilter f tS wS q).map
            (Leaderboard.lbEntry db.votes db.feedback)).mergeSort
          Leaderboard.moreInteresting :=
      List.mem_mergeSort.mpr (List.mem_map_of_mem _ hpf)
    obtain ⟨s, hmem⟩ := Leaderboard.mem_assignRanksFrom_of_mem 1 hsort
    have hlen2 : (Leaderboard.assignRanksFrom 1
        (((db.pitches.filter fun q => q.status == PitchStatus.published &&
          Leaderboard.passesFilter f tS wS q).map
            (Leaderboard.lbEntry db.votes db.feedback)).mergeSort
          Leaderboard.moreInteresting)).length ≤ 20 := by
      rw [Leaderboard.assignRanksFrom_length, List.length_mergeSort,
        List.length_map]
      exact hlen
    refine ⟨{ Leaderboard.lbEntry db.votes db.feedback p with rank := s },
      ?_, rfl⟩
    simp only [Leaderboard.loadLeaderboard]
    rw [List.take_of_length_le hlen2]
    exact hmem

theorem loadLeaderboard_spec_witness :
    (∀ e ∈ Leaderboard.loadLeaderboard dbVoted .all 0 0, ∃ p ∈ dbVoted.pitches,
      p.status = .published ∧
      Leaderboard.passesFilter .all 0 0 p = true ∧
      e.id = p.id ∧
      e.interesting = Leaderboard.countVotes dbVoted.votes p.id .interesting ∧
      e.needs_work = Leaderboard.countVotes dbVoted.votes p.id .needs_work) ∧
    (Leaderboard.loadLeaderboard dbVoted .all 0 0).Pairwise
      (fun a b => b.interesting ≤ a.interesting) ∧
    (Leaderboard.loadLeaderboard dbVoted .all 0 0).map
      Leaderboard.LBEntry.rank =
      List.range' 1 (Leaderboard.loadLeaderboard dbVoted .all 0 0).length ∧
    (Leaderboard.loadLeaderboard dbVoted .all 0 0).length ≤ 20 ∧
    ((dbVoted.pitches.filter fun p => p.status == PitchStatus.published &&
        Leaderboard.passesFilter .all 0 0 p).length ≤ 20 →
      ∀ p ∈ dbVoted.pitches, p.status = .published →
        Leaderboard.passesFilter .all 0 0 p = true →
        ∃ e ∈ Leaderboard.loadLeaderboard dbVoted .all 0 0, e.id = p.id) :=
  loadLeaderboard_spec dbVoted .all 0 0

/-- C6: an elevator pitch under 250 or over 500 words makes the step-5
validity check false, keeps the submit button disabled, and therefore the
publish action (`handleSubmit`) unreachable from the button. -/
theorem elevator_pitch_bounds_block_publish (fd : PitchFormData)
    (loading : Bool)
    (h : PitchSubmissionForm.wordCount fd.elevator_pitch < 250 ∨
      500 < PitchSubmissionForm.wordCount fd.elevator_pitch) :
    PitchSubmissionForm.isStepValid 5 fd = false ∧
    PitchSubmissionForm.submitDisabled 5 fd loading = true ∧
    PitchSubmissionForm.clickNext 5 fd loading = .blocked := by
  have hdef : PitchSubmissionForm.isStepValid 5 fd =
      (decide (250 ≤ PitchSubmissionForm.wordCount fd.elevator_pitch) &&
       decide (PitchSubmissionForm.wordCount fd.elevator_pitch ≤ 500)) := rfl
  have h1 : PitchSubmissionForm.isStepValid 5 fd = false := by
    rw [hdef]
    rcases h with h | h
    · have hn : ¬(250 ≤ PitchSubmissionForm.wordCount fd.elevator_pitch) := by
        omega
      simp [hn]
    · have hn : ¬(PitchSubmissionForm.wordCount fd.elevator_pitch ≤ 500) := by
        omega
      simp [hn]
  have h2 : PitchSubmissionForm.submitDisabled 5 fd loading = true := by
    simp [PitchSubmissionForm.submitDisabled, h1]
  refine ⟨h1, h2, ?_⟩
  simp [PitchSubmissionForm.clickNext, h2]

theorem elevator_pitch_bounds_block_publish_witness :
    (PitchSubmissionForm.wordCount shortForm.elevator_pitch < 250 ∨
      500 < PitchSubmissionForm.wordCount shortForm.elevator_pitch) ∧
    (PitchSubmissionForm.isStepValid 5 shortForm = false ∧
      PitchSubmissionForm.submitDisabled 5 shortForm false = true ∧
      PitchSubmissionForm.clickNext 5 shortForm false = .blocked) :=
  ⟨Or.inl (by decide),
    elevator_pitch_bounds_block_publish shortForm false (Or.inl (by decide))⟩

/-! ## Voting-operation lemmas (C8) -/

theorem countVotePair_append_self (db : DB) (pid uid : Nat) (vt : VoteType) :
    countVotePair { db with votes := db.votes ++ [⟨pid, uid, vt⟩] } pid uid =
      countVotePair db pid uid + 1 := by
  unfold countVotePair
  simp [List.filter_append, pairMatches]

theorem countVotePair_zero_of_not_hasVote {db : DB} {pid uid : Nat}
    (h : hasVote db pid uid = false) : countVotePair db pid uid = 0 := by
  unfold countVotePair
  rw [List.filter_eq_nil_iff.mpr, List.length_nil]
  intro v hv hvp
  rw [hasVote, List.any_eq_false] at h
  exact h v hv hvp

theorem countVotePair_map_vote_type (db : DB) (pid uid : Nat) (vt : VoteType) :
    countVotePair { db with votes := db.votes.map (fun v =>
      if pairMatches pid uid v then { v with vote_type := vt } else v) } pid uid =
      countVotePair db pid uid := by
  unfold countVotePair
  rw [← List.countP_eq_length_filter, ← List.countP_eq_length_filter]
  show (db.votes.map _).countP _ = _
  rw [List.countP_map]
  congr 1
  funext v
  by_cases h : pairMatches pid uid v
  · have hp := h
    simp only [pairMatches, Bool.and_eq_true, beq_iff_eq] at hp
    simp [Function.comp, h, pairMatches, hp.1, hp.2]
  · simp [Function.comp, h]

/-- C8: given a published pitch and a non-owner voter, the voting
operations insert a first vote when none exists and update the existing
row's type in place otherwise, never creating a second row for the same
(pitch, voter) pair. -/
theorem handleVote_inserts_or_updates (db : DB) (pid uid : Nat)
    (vt : VoteType) (p : PitchRow) (hfp : findPitch db pid = some p)
    (_hpub : p.status = .published) (howner : p.user_id ≠ uid) :
    (hasVote db pid uid = false →
      PitchDetailView.handleVote db pid uid vt =
        { db with votes := db.votes ++ [⟨pid, uid, vt⟩] } ∧
      DiscoverFeed.handleVote db pid uid vt =
        { db with votes := db.votes ++ [⟨pid, uid, vt⟩] } ∧
      countVotePair (PitchDetailView.handleVote db pid uid vt) pid uid =
        countVotePair db pid uid + 1) ∧
    (hasVote db pid uid = true →
      (PitchDetailView.handleVote db pid uid vt).votes =
        db.votes.map (fun v =>
          if pairMatches pid uid v then { v with vote_type := vt } else v) ∧
      (PitchDetailView.handleVote db pid uid vt).votes.length =
        db.votes.length ∧
      DiscoverFeed.handleVote db pid uid vt = db) ∧
    (countVotePair db pid uid ≤ 1 →
      countVotePair (PitchDetailView.handleVote db pid uid vt) pid uid ≤ 1 ∧
      countVotePair (DiscoverFeed.handleVote db pid uid vt) pid uid ≤ 1) := by
  refine ⟨fun hnv => ?_, fun hhv => ?_, fun hle => ?_⟩
  · have hd : PitchDetailView.handleVote db pid uid vt =
        { db with votes := db.votes ++ [⟨pid, uid, vt⟩] } := by
      simp only [PitchDetailView.handleVote, hfp]
      rw [if_neg howner, if_neg (by simp [hnv])]
    have hds : DiscoverFeed.handleVote db pid uid vt =
        { db with votes := db.votes ++ [⟨pid, uid, vt⟩] } := by
      simp only [DiscoverFeed.handleVote, hfp]
      rw [if_pos ⟨howner, hnv⟩]
    refine ⟨hd, hds, ?_⟩
    rw [hd, countVotePair_append_self]
  · have hd : (PitchDetailView.handleVote db pid uid vt) =
        { db with votes := db.votes.map fun v =>
          if pairMatches pid uid v then { v with vote_type := vt } else v } := by
      simp only [PitchDetailView.handleVote, hfp]
      rw [if_neg howner, if_pos hhv]
    have hds : DiscoverFeed.handleVote db pid uid vt = db := by
      simp only [DiscoverFeed.handleVote, hfp]
      rw [if_neg (by simp [hhv])]
    refine ⟨by rw [hd], ?_, hds⟩
    rw [hd]
    exact List.length_map _ _
  · cases hnv : hasVote db pid uid with
    | false =>
      have h0 := countVotePair_zero_of_not_hasVote hnv
      have hd : PitchDetailView.handleVote db pid uid vt =
          { db with votes := db.votes ++ [⟨pid, uid, vt⟩] } := by
        simp only [PitchDetailView.handleVote, hfp]
        rw [if_neg howner, if_neg (by simp [hnv])]
      have hds : DiscoverFeed.handleVote db pid uid vt =
          { db with votes := db.votes ++ [⟨pid, uid, vt⟩] } := by
        simp only [DiscoverFeed.handleVote, hfp]
        rw [if_pos ⟨howner, hnv⟩]
      constructor
      · rw [hd, countVotePair_append_self, h0]
      · rw [hds, countVotePair_append_self, h0]
    | true =>
      have hd : (PitchDetailView.handleVote db pid uid vt) =
          { db with votes := db.votes.map fun v =>
            if pairMatches pid uid v then { v with vote_type := vt } else v } := by
        simp only [PitchDetailView.handleVote, hfp]
        rw [if_neg howner, if_pos hnv]
      have hds : DiscoverFeed.handleVote db pid uid vt = db := by
        simp only [DiscoverFeed.handleVote, hfp]
        rw [if_neg (by simp [hnv])]
      constructor
      · rw [hd, countVotePair_map_vote_type]
        exact hle
      · rw [hds]
        exact hle

theorem handleVote_inserts_or_updates_witness :
    (hasVote dbCompleted 1 20 = false →
      PitchDetailView.handleVote dbCompleted 1 20 .interesting =
        { dbCompleted with votes :=
          dbCompleted.votes ++ [⟨1, 20, .interesting⟩] } ∧
      DiscoverFeed.handleVote dbCompleted 1 20 .interesting =
        { dbCompleted with votes :=
          dbCompleted.votes ++ [⟨1, 20, .interesting⟩] } ∧
      countVotePair (PitchDetailView.handleVote dbCompleted 1 20 .interesting)
        1 20 = countVotePair dbCompleted 1 20 + 1) ∧
    (hasVote dbCompleted 1 20 = true →
      (PitchDetailView.handleVote dbCompleted 1 20 .interesting).votes =
        dbCompleted.votes.map (fun v =>
          if pairMatches 1 20 v then { v with vote_type := .interesting }
          else v) ∧
      (PitchDetailView.handleVote dbCompleted 1 20 .interesting).votes.length =
        dbCompleted.votes.length ∧
      DiscoverFeed.handleVote dbCompleted 1 20 .interesting = dbCompleted) ∧
    (countVotePair dbCompleted 1 20 ≤ 1 →
      countVotePair (PitchDetailView.handleVote dbCompleted 1 20 .interesting)
        1 20 ≤ 1 ∧
      countVotePair (DiscoverFeed.handleVote dbCompleted 1 20 .interesting)
        1 20 ≤ 1) :=
  handleVote_inserts_or_updates dbCompleted 1 20 .interesting
    samplePitchCompleted (by decide) rfl (by decide)

/-- C10: the "% positive" denominator is never zero: when a pitch has no
votes the fallback denominator 1 is used and the figure is 0. -/
theorem percent_positive_fallback (i nw : Nat) :
    Leaderboard.percentDenominator i nw ≠ 0 ∧
    (i + nw = 0 → Leaderboard.percentDenominator i nw = 1 ∧
      Leaderboard.percentPositive i nw = 0) := by
  constructor
  · unfold Leaderboard.percentDenominator
    split_ifs with h
    · exact one_ne_zero
    · omega
  · intro h
    have hi : i = 0 := by omega
    have hnw : nw = 0 := by omega
    subst hi
    subst hnw
    refine ⟨rfl, ?_⟩
    unfold Leaderboard.percentPositive Leaderboard.jsRound
      Leaderboard.percentDenominator
    norm_num

theorem percent_positive_fallback_witness :
    Leaderboard.percentDenominator 0 0 ≠ 0 ∧
    (Leaderboard.percentDenominator 0 0 = 1 ∧
      Leaderboard.percentPositive 0 0 = 0) :=
  ⟨(percent_positive_fallback 0 0).1, (percent_positive_fallback 0 0).2 rfl⟩

end PitchArena
